import Mathlib

/-
Verification development for the Fory-compatible serializer core.

The development shallowly embeds the serializer core:

  - the buffer codec (LEB128 unsigned varints, zig-zag signed varints,
    little-endian fixed-width integers), modelled from the specification
    since the buffer implementation is not among the provided sources;
  - the bool serializer, translated from
    src/rust/fory-core/src/serializer/bool.rs;
  - the compile-time field-type-tree translator generic_tree_to_tokens and
    the compatible-mode per-field reader generated by
    NullableTypeNode::to_deserialize_tokens, both translated from
    src/rust/fory-derive/src/object/util.rs;
  - the writer, skip walk, TypeMeta codec and reconciliation driver,
    modelled from the specification (their code is not among the provided
    sources; the reader in util.rs pins their wire format).

Machine integers are modelled as Nat (bytes, unsigned 32-bit quantities)
and Int (signed values), with explicit bounds where width matters.
Streams are lists of byte values.  All definitions are executable and
kernel-reducible so that every concrete claim instance evaluates by
decide or rfl.
-/

set_option maxRecDepth 100000

/-! ### Byte-level primitives (modelled from the spec, section 4.1) -/

/-- Modelled from the spec: interpret one unsigned byte as a signed 8-bit
value (two's complement), as Rust's Reader::i8 does. -/
def byteToI8 (b : Nat) : Int :=
  if b < 128 then (b : Int) else (b : Int) - 256

/-- Modelled from the spec: the low byte of a signed value, two's
complement, as Rust's Writer::i8 emits. -/
def i8ToByte (n : Int) : Nat :=
  (n % 256).toNat

/-- Modelled from the spec: little-endian fixed-width encoding, `w` bytes
of the natural number `m` (low byte first). -/
def writeLE : Nat → Nat → List Nat
  | 0, _ => []
  | w + 1, m => m % 256 :: writeLE w (m / 256)

/-- Modelled from the spec: little-endian fixed-width decoding of `w`
bytes; fails when the stream is too short. -/
def readLE : Nat → List Nat → Option (Nat × List Nat)
  | 0, bs => some (0, bs)
  | _ + 1, [] => none
  | w + 1, b :: bs =>
    match readLE w bs with
    | none => none
    | some (m, rest) => some (b + 256 * m, rest)

theorem writeLE_length (w m : Nat) : (writeLE w m).length = w := by
  induction w generalizing m with
  | zero => rfl
  | succ w ih => simp [writeLE, ih]

theorem readLE_writeLE (w : Nat) :
    ∀ (m : Nat) (rest : List Nat), m < 256 ^ w →
      readLE w (writeLE w m ++ rest) = some (m, rest) := by
  induction w with
  | zero =>
    intro m rest hm
    norm_num at hm
    subst hm
    rfl
  | succ w ih =>
    intro m rest hm
    have hm' : m < 256 * 256 ^ w := by rw [pow_succ] at hm; omega
    have hdiv : m / 256 < 256 ^ w := Nat.div_lt_of_lt_mul hm'
    have hrw := ih (m / 256) rest hdiv
    simp [writeLE, readLE, hrw]
    omega

/-! ### Variable-length integers (modelled from the spec, sections 4.1, 6) -/

/-- Modelled from the spec: LEB128 emission with an explicit recursion
bound; five bytes always suffice for a 32-bit quantity. -/
def writeVarUintAux : Nat → Nat → List Nat
  | 0, _ => []
  | fuel + 1, n => if n < 128 then [n] else (n % 128 + 128) :: writeVarUintAux fuel (n / 128)

/-- Modelled from the spec: Writer::var_uint32, LEB128 over the low 32
bits of the argument, at most five bytes. -/
def Writer.var_uint32 (n : Nat) : List Nat :=
  writeVarUintAux 5 (n % 4294967296)

/-- Modelled from the spec: LEB128 consumption; stops at the first byte
with a clear high bit, errors after `fuel` continuation bytes or at end
of stream. -/
def readVarUintAux : Nat → Nat → Nat → List Nat → Option (Nat × List Nat)
  | 0, _, _, _ => none
  | _ + 1, _, _, [] => none
  | fuel + 1, shift, acc, b :: bs =>
    if b < 128 then some (acc + b * 2 ^ shift, bs)
    else readVarUintAux fuel (shift + 7) (acc + b % 128 * 2 ^ shift) bs

/-- Modelled from the spec: Reader::var_uint32; more than five bytes is a
malformed-stream error. -/
def Reader.var_uint32 (bs : List Nat) : Option (Nat × List Nat) :=
  readVarUintAux 5 0 0 bs

/-- Modelled from the spec: the zig-zag mapping of a signed 32-bit value,
equal to the bit formula (v shl 1) xor (v ashr 31) on 32-bit words. -/
def zigzag (v : Int) : Nat :=
  if 0 ≤ v then (2 * v).toNat else (-2 * v - 1).toNat

/-- Modelled from the spec: the inverse zig-zag mapping. -/
def unzigzag (n : Nat) : Int :=
  if n % 2 = 0 then ((n / 2 : Nat) : Int) else -((n / 2 : Nat) : Int) - 1

/-- Modelled from the spec: Writer::var_int32, zig-zag then LEB128. -/
def Writer.var_int32 (v : Int) : List Nat :=
  Writer.var_uint32 (zigzag v)

/-- Modelled from the spec: Reader::var_int32, LEB128 then inverse
zig-zag. -/
def Reader.var_int32 (bs : List Nat) : Option (Int × List Nat) :=
  match Reader.var_uint32 bs with
  | none => none
  | some (n, rest) => some (unzigzag n, rest)

theorem writeVarUintAux_succ (f n : Nat) :
    writeVarUintAux (f + 1) n
      = if n < 128 then [n] else (n % 128 + 128) :: writeVarUintAux f (n / 128) := rfl

theorem readVarUintAux_cons (f shift acc b : Nat) (bs : List Nat) :
    readVarUintAux (f + 1) shift acc (b :: bs)
      = if b < 128 then some (acc + b * 2 ^ shift, bs)
        else readVarUintAux f (shift + 7) (acc + b % 128 * 2 ^ shift) bs := rfl

theorem readVarUintAux_spec (fuel : Nat) :
    ∀ (n shift acc : Nat) (rest : List Nat), n < 128 ^ (fuel + 1) →
      readVarUintAux (fuel + 1) shift acc (writeVarUintAux (fuel + 1) n ++ rest)
        = some (acc + n * 2 ^ shift, rest) := by
  induction fuel with
  | zero =>
    intro n shift acc rest hn
    norm_num at hn
    simp [writeVarUintAux, readVarUintAux, hn]
  | succ fuel ih =>
    intro n shift acc rest hn
    by_cases h : n < 128
    · simp [writeVarUintAux, readVarUintAux, h]
    · have hn' : n < 128 * 128 ^ (fuel + 1) := by
        rw [pow_succ] at hn; omega
      have hdiv : n / 128 < 128 ^ (fuel + 1) := Nat.div_lt_of_lt_mul hn'
      rw [writeVarUintAux_succ]
      simp only [h, if_false, List.cons_append]
      rw [readVarUintAux_cons]
      have hb : ¬ (n % 128 + 128 < 128) := by omega
      simp only [hb, if_false]
      have hmod : (n % 128 + 128) % 128 = n % 128 := by omega
      rw [hmod, ih (n / 128) (shift + 7) (acc + n % 128 * 2 ^ shift) rest hdiv]
      have harith : acc + n % 128 * 2 ^ shift + n / 128 * 2 ^ (shift + 7)
          = acc + n * 2 ^ shift := by
        have h7 : 2 ^ (shift + 7) = 2 ^ shift * 128 := by rw [pow_add]; norm_num
        rw [h7]
        have hsplit : n % 128 * 2 ^ shift + n / 128 * (2 ^ shift * 128) = n * 2 ^ shift := by
          have h128 : n % 128 + 128 * (n / 128) = n := Nat.mod_add_div n 128
          calc n % 128 * 2 ^ shift + n / 128 * (2 ^ shift * 128)
              = (n % 128 + 128 * (n / 128)) * 2 ^ shift := by ring
            _ = n * 2 ^ shift := by rw [h128]
        omega
      rw [harith]

theorem var_uint32_roundtrip (n : Nat) (rest : List Nat) (hn : n < 4294967296) :
    Reader.var_uint32 (Writer.var_uint32 n ++ rest) = some (n, rest) := by
  have h : n % 4294967296 = n := Nat.mod_eq_of_lt hn
  have hlt : n < 128 ^ (4 + 1) := by omega
  have := readVarUintAux_spec 4 n 0 0 rest hlt
  simpa [Reader.var_uint32, Writer.var_uint32, h] using this

theorem unzigzag_zigzag (v : Int) : unzigzag (zigzag v) = v := by
  by_cases h : 0 ≤ v
  · have h2 : (2 * v).toNat % 2 = 0 := by omega
    simp only [zigzag, h, if_true, unzigzag, h2, if_true]
    omega
  · have h2 : (-2 * v - 1).toNat % 2 = 1 := by omega
    simp only [zigzag, h, if_false, unzigzag, h2]
    norm_num
    omega

theorem zigzag_lt (v : Int) (h1 : -2147483648 ≤ v) (h2 : v < 2147483648) :
    zigzag v < 4294967296 := by
  unfold zigzag
  by_cases h : 0 ≤ v
  · simp only [h, if_true]; omega
  · simp only [h, if_false]; omega

theorem var_int32_roundtrip (v : Int) (rest : List Nat)
    (h1 : -2147483648 ≤ v) (h2 : v < 2147483648) :
    Reader.var_int32 (Writer.var_int32 v ++ rest) = some (v, rest) := by
  unfold Reader.var_int32 Writer.var_int32
  rw [var_uint32_roundtrip (zigzag v) rest (zigzag_lt v h1 h2)]
  simp [unzigzag_zigzag]

/-- Modelled from the spec: the reinterpretation of a signed 32-bit value
as an unsigned one (the Rust cast v as u32). -/
def intAsU32 (v : Int) : Nat :=
  (v % 4294967296).toNat

/-! ### C4: varint boundary round-trips and encoded lengths -/

/-- The boundary values exercised by test_var_int32. -/
def varintBoundaryVals : List Int :=
  [0, 1, 127, 128, 300, 16383, 16384, 20000, 2097151, 2097152,
   100000000, 268435455, 268435456, 2147483647]

/-- C4: for every boundary value v, writing with Writer::var_int32 then
reading with Reader::var_int32 yields v back, writing v as u32 with
Writer::var_uint32 then reading with Reader::var_uint32 yields v as u32
back, and the unsigned LEB128 encoded lengths fall in the stated byte
brackets: one byte for 0..127, two for 128..16383, three for
16384..2097151, four for 2097152..268435455, five up to i32::MAX. -/
theorem varint_boundary_roundtrip :
    (varintBoundaryVals.all fun v =>
      Reader.var_int32 (Writer.var_int32 v) == some (v, [])) = true ∧
    (varintBoundaryVals.all fun v =>
      Reader.var_uint32 (Writer.var_uint32 (intAsU32 v)) == some (intAsU32 v, [])) = true ∧
    ([(0 : Int), 1, 127].all fun v =>
      (Writer.var_uint32 (intAsU32 v)).length == 1) = true ∧
    ([(128 : Int), 300, 16383].all fun v =>
      (Writer.var_uint32 (intAsU32 v)).length == 2) = true ∧
    ([(16384 : Int), 20000, 2097151].all fun v =>
      (Writer.var_uint32 (intAsU32 v)).length == 3) = true ∧
    ([(2097152 : Int), 100000000, 268435455].all fun v =>
      (Writer.var_uint32 (intAsU32 v)).length == 4) = true ∧
    ([(268435456 : Int), 2147483647].all fun v =>
      (Writer.var_uint32 (intAsU32 v)).length == 5) = true := by
  refine ⟨?_, ?_, ?_, ?_, ?_, ?_, ?_⟩ <;> decide

/-! ### C6: the bool serializer (translated from fory-core serializer/bool.rs) -/

/-- Translated from bool.rs: write emits one byte, 1 for true, 0 for
false. -/
def bool_write (b : Bool) : List Nat :=
  [if b then 1 else 0]

/-- Translated from bool.rs: read consumes one byte and yields the
comparison of that byte with 1 (Ok(context.reader.u8() == 1)). -/
def bool_read (bs : List Nat) : Option (Bool × List Nat) :=
  match bs with
  | [] => none
  | b :: rest => some (b == 1, rest)

/-- C6 counterexample: the byte 2 is non-zero, yet bool::read decodes the
one-byte stream [2] to false, contradicting the claim that any non-zero
byte decodes to true. -/
theorem bool_read_nonzero_byte_gives_false :
    (2 : Nat) ≠ 0 ∧ bool_read [2] = some (false, []) := by
  exact ⟨by decide, rfl⟩

/-- C6 amended: bool::write emits exactly one byte, 1 for true and 0 for
false; bool::read consumes exactly one byte and decodes it to true if and
only if it equals 1 (so any byte other than 1, including non-zero bytes,
decodes to false), and it never fails when a byte is available. -/
theorem bool_codec_spec :
    bool_write true = [1] ∧ bool_write false = [0] ∧
    (∀ (b : Nat) (rest : List Nat), bool_read (b :: rest) = some (b == 1, rest)) ∧
    (∀ b : Bool, bool_read (bool_write b) = some (b, [])) := by
  refine ⟨rfl, rfl, fun b rest => rfl, fun b => ?_⟩
  cases b <;> rfl

/-! ### Type id catalog (modelled from the spec, section 4.2) -/

/-- Modelled from the spec: stable type id for BOOL. -/
def tidBOOL : Nat := 1
/-- Modelled from the spec: stable type id for INT8. -/
def tidINT8 : Nat := 2
/-- Modelled from the spec: stable type id for INT16. -/
def tidINT16 : Nat := 3
/-- Modelled from the spec: stable type id for INT32. -/
def tidINT32 : Nat := 4
/-- Modelled from the spec: stable type id for INT64. -/
def tidINT64 : Nat := 5
/-- Modelled from the spec: stable type id for STRING. -/
def tidSTRING : Nat := 8
/-- Modelled from the spec: stable type id for ARRAY (Sequence). -/
def tidARRAY : Nat := 12
/-- Modelled from the spec: stable type id for MAP. -/
def tidMAP : Nat := 13
/-- Modelled from the spec: stable type id for SET. -/
def tidSET : Nat := 14
/-- Modelled from the spec: stable type id for STRUCT. -/
def tidSTRUCT : Nat := 15
/-- Modelled from the spec: the synthetic OPTION marker used inside
FieldType trees, never as an on-wire leaf id. -/
def tidOPTION : Nat := 16

/-! ### C9: struct composite id masking -/

/-- Modelled from the spec: the on-wire composite type id of a struct,
(user_id shl 8) or STRUCT, truncated to 32 bits. -/
def composite_type_id (user_id : Nat) : Nat :=
  ((user_id <<< 8) ||| tidSTRUCT) % 4294967296

/-- Translated from util.rs (struct branch of to_deserialize_tokens): the
generated reader masks the composite id with 0xff and checks the result
against the STRUCT type id. -/
def struct_id_check (type_id : Nat) : Bool :=
  (type_id &&& 255) == tidSTRUCT

theorem composite_low_byte (u : Nat) :
    composite_type_id u &&& 255 = tidSTRUCT := by
  unfold composite_type_id tidSTRUCT
  have h255 : (255 : Nat) = 2 ^ 8 - 1 := by norm_num
  have hm : (4294967296 : Nat) = 2 ^ 32 := by norm_num
  rw [h255, Nat.and_pow_two_sub_one_eq_mod, hm]
  apply Nat.eq_of_testBit_eq
  intro i
  rw [Nat.testBit_mod_two_pow, Nat.testBit_mod_two_pow, Nat.testBit_lor, Nat.testBit_shiftLeft]
  by_cases h8 : i < 8
  · have h32 : i < 32 := Nat.lt_of_lt_of_le h8 (by norm_num)
    have hge : ¬ (i ≥ 8) := by omega
    simp [h8, h32, hge]
  · have h4 : (4 : Nat) ≤ i := by omega
    have h15 : Nat.testBit 15 i = false :=
      Nat.testBit_eq_false_of_lt
        (Nat.lt_of_lt_of_le (by norm_num : (15 : Nat) < 2 ^ 4)
          (Nat.pow_le_pow_right (by norm_num) h4))
    simp [h8, h15]

/-- C9: for every registered user id, the struct's on-wire composite type
id has its low byte equal to the STRUCT type id, so the generated
reader's assertion that (composite_type_id and 0xff) equals STRUCT never
fails on ids produced by serialization. -/
theorem struct_composite_id_masking (u : Nat) :
    struct_id_check (composite_type_id u) = true ∧
    composite_type_id u &&& 255 = tidSTRUCT := by
  have h := composite_low_byte u
  exact ⟨by simp [struct_id_check, h], h⟩

/-! ### C8: the declared-type tree translator (translated from util.rs) -/

/-- Translated from util.rs: the parsed declared-type tree (TypeNode has a
name and a list of generic arguments).  Generic-argument lists are
spine-encoded inside the same inductive: a node carries a spine built
from gnil and gcons whose heads are nodes. -/
inductive TypeNode where
  | node (name : String) (generics : TypeNode)
  | gnil
  | gcons (head tail : TypeNode)
deriving DecidableEq

/-- The name of the first generic argument of a spine, when present. -/
def firstGenericName : TypeNode → Option String
  | .gcons (.node nm _) _ => some nm
  | _ => none

/-- Well-formedness of a declared-type tree: generic spines are lists of
nodes, and every node named Option has at least one generic argument
(the Rust code unwraps the first generic of an Option node). -/
def wfTypeTree : TypeNode → Bool
  | .node nm gens =>
    (!(nm == "Option") || (firstGenericName gens).isSome) && wfTypeTree gens
  | .gnil => true
  | .gcons h t =>
    (match h with
     | .node _ _ => true
     | _ => false) && wfTypeTree h && wfTypeTree t

/-- The type-id expression placed in a generated FieldType constructor:
either the synthetic OPTION constant (for an Option node) or a call to
the Serializer get_type_id of the declared type. -/
inductive TidExpr where
  | optionConst
  | getTypeIdOf (ty : TypeNode)
deriving DecidableEq

/-- The token stream produced by generic_tree_to_tokens: either the
compile_error invocation, or a FieldType::new construction with a spine
of child token streams. -/
inductive TokStream where
  | compileErrorTok
  | fieldTypeNew (tid : TidExpr) (children : TokStream)
  | toksNil
  | toksCons (h t : TokStream)
deriving DecidableEq

/-- Translated from util.rs: generic_tree_to_tokens.  An Option node whose
first generic is itself Option returns the compile_error token stream
immediately; otherwise the node becomes a FieldType::new construction
whose type id is the OPTION constant for Option nodes and a get_type_id
call otherwise, with the generic arguments translated recursively as its
children. -/
def generic_tree_to_tokens : TypeNode → TokStream
  | .node nm gens =>
    if nm == "Option" && (firstGenericName gens == some "Option") then
      .compileErrorTok
    else
      .fieldTypeNew
        (if nm == "Option" then .optionConst else .getTypeIdOf (.node nm gens))
        (generic_tree_to_tokens gens)
  | .gnil => .toksNil
  | .gcons h t => .toksCons (generic_tree_to_tokens h) (generic_tree_to_tokens t)

/-- A tree contains adjacent Option nesting when some Option node's first
generic argument is itself Option. -/
def hasAdjacentOption : TypeNode → Bool
  | .node nm gens =>
    (nm == "Option" && (firstGenericName gens == some "Option")) || hasAdjacentOption gens
  | .gnil => false
  | .gcons h t => hasAdjacentOption h || hasAdjacentOption t

/-- A token stream contains a compile_error invocation somewhere. -/
def containsCompileError : TokStream → Bool
  | .compileErrorTok => true
  | .fieldTypeNew _ cs => containsCompileError cs
  | .toksNil => false
  | .toksCons h t => containsCompileError h || containsCompileError t

/-- The root of a token stream is a FieldType::new construction. -/
def isFieldTypeNew : TokStream → Bool
  | .fieldTypeNew _ _ => true
  | _ => false

/-- C8: for every well-formed declared field type tree, the generated
token stream contains a compile_error invocation exactly when the tree
contains an Option node whose immediate first type argument is itself
Option; and for a (node-rooted) tree free of adjacent Option nesting the
output is a FieldType-constructing token stream. -/
theorem adjacent_option_rejection (t : TypeNode) (hwf : wfTypeTree t = true) :
    (containsCompileError (generic_tree_to_tokens t) = true
      ↔ hasAdjacentOption t = true) ∧
    (∀ nm gens, t = TypeNode.node nm gens → hasAdjacentOption t = false →
      isFieldTypeNew (generic_tree_to_tokens t) = true) := by
  constructor
  · clear hwf
    induction t with
    | node nm gens ih =>
      by_cases h : (nm == "Option" && (firstGenericName gens == some "Option")) = true
      · simp [generic_tree_to_tokens, hasAdjacentOption, h, containsCompileError]
      · simp only [generic_tree_to_tokens, hasAdjacentOption, h, if_false,
          Bool.false_or, containsCompileError]
        exact ih
    | gnil => simp [generic_tree_to_tokens, hasAdjacentOption, containsCompileError]
    | gcons h t ih1 ih2 =>
      simp only [generic_tree_to_tokens, hasAdjacentOption, containsCompileError,
        Bool.or_eq_true, ih1, ih2]
  · intro nm gens ht hno
    subst ht
    simp only [hasAdjacentOption, Bool.or_eq_false_iff] at hno
    simp [generic_tree_to_tokens, hno.1, isFieldTypeNew]

/-- C8 witness: the tree of Option of Option of String is well formed and
its generated token stream is the compile_error stream, while the tree of
Vec of Option of String is well formed, has no adjacent Option nesting,
and generates a FieldType construction. -/
theorem adjacent_option_rejection_witness :
    wfTypeTree (TypeNode.node "Option"
      (TypeNode.gcons (TypeNode.node "Option"
        (TypeNode.gcons (TypeNode.node "String" TypeNode.gnil) TypeNode.gnil))
        TypeNode.gnil)) = true ∧
    containsCompileError (generic_tree_to_tokens (TypeNode.node "Option"
      (TypeNode.gcons (TypeNode.node "Option"
        (TypeNode.gcons (TypeNode.node "String" TypeNode.gnil) TypeNode.gnil))
        TypeNode.gnil))) = true ∧
    isFieldTypeNew (generic_tree_to_tokens (TypeNode.node "Vec"
      (TypeNode.gcons (TypeNode.node "Option"
        (TypeNode.gcons (TypeNode.node "String" TypeNode.gnil) TypeNode.gnil))
        TypeNode.gnil))) = true := by
  refine ⟨by decide, ?_, ?_⟩
  · exact (adjacent_option_rejection _ (by decide)).1.mpr (by decide)
  · exact (adjacent_option_rejection _ (by decide)).2 _ _ rfl (by decide)


/-! ### Runtime type trees and values -/

/-- The runtime view of a declared field type: each node of the generated
NullableTypeNode carries a nullable flag (true when the declared type at
this position was wrapped in Option) and its base shape.  The shapes are
the ones exercised by the compatible-mode claims: the fixed-width
integers i8, i16, i64, bool, String, Vec, HashSet and HashMap. -/
inductive NTy where
  | ti8 (nl : Bool)
  | ti16 (nl : Bool)
  | ti64 (nl : Bool)
  | tbool (nl : Bool)
  | tstr (nl : Bool)
  | tvec (nl : Bool) (e : NTy)
  | tset (nl : Bool) (e : NTy)
  | tmap (nl : Bool) (k v : NTy)
deriving DecidableEq, Repr

/-- The nullable flag of a runtime type node (the NullableTypeNode
nullable field). -/
def NTy.nullable : NTy → Bool
  | .ti8 nl | .ti16 nl | .ti64 nl | .tbool nl | .tstr nl => nl
  | .tvec nl _ | .tset nl _ | .tmap nl _ _ => nl

/-- The type with every nullable flag erased, at every depth.  Two field
types reconcile by value when their stripped trees coincide. -/
def stripNT : NTy → NTy
  | .ti8 _ => .ti8 false
  | .ti16 _ => .ti16 false
  | .ti64 _ => .ti64 false
  | .tbool _ => .tbool false
  | .tstr _ => .tstr false
  | .tvec _ e => .tvec false (stripNT e)
  | .tset _ e => .tset false (stripNT e)
  | .tmap _ k v => .tmap false (stripNT k) (stripNT v)

/-- The wire type id of a runtime type node's base shape. -/
def ntyTypeId : NTy → Nat
  | .ti8 _ => tidINT8
  | .ti16 _ => tidINT16
  | .ti64 _ => tidINT64
  | .tbool _ => tidBOOL
  | .tstr _ => tidSTRING
  | .tvec _ _ => tidARRAY
  | .tset _ _ => tidSET
  | .tmap _ _ _ => tidMAP

/-- The depth of a runtime type tree; it bounds the declared-type descent
of the generated reader and of the skip walk. -/
def ntyDepth : NTy → Nat
  | .tvec _ e => 1 + ntyDepth e
  | .tset _ e => 1 + ntyDepth e
  | .tmap _ k v => 1 + max (ntyDepth k) (ntyDepth v)
  | _ => 1

/-- The element type of a sequence or set node (identity elsewhere); this
is the generics first entry of the runtime NullableTypeNode. -/
def elemTy : NTy → NTy
  | .tvec _ e => e
  | .tset _ e => e
  | t => t

/-- The key type of a map node (identity elsewhere). -/
def keyTy : NTy → NTy
  | .tmap _ k _ => k
  | t => t

/-- The value type of a map node (identity elsewhere). -/
def valTy : NTy → NTy
  | .tmap _ _ v => v
  | t => t

/-- Runtime values.  Sequences, sets and maps carry their entries on a
spine built from vnil and vcons (map entries are vpair cells), so that
every operation on values is structurally recursive and kernel
reducible. -/
inductive Val where
  | vi8 (n : Int)
  | vi16 (n : Int)
  | vi64 (n : Int)
  | vbool (b : Bool)
  | vstr (s : List Nat)
  | vnone
  | vsome (v : Val)
  | vnil
  | vcons (h t : Val)
  | vpair (a b : Val)
  | vvec (sp : Val)
  | vset (sp : Val)
  | vmap (sp : Val)
deriving DecidableEq, Repr

/-- Convert a Lean list of values into a spine. -/
def vlist (l : List Val) : Val :=
  l.foldr Val.vcons Val.vnil

/-- Convert a Lean list of pairs into a spine of vpair cells. -/
def vplist (l : List (Val × Val)) : Val :=
  l.foldr (fun p acc => Val.vcons (Val.vpair p.1 p.2) acc) Val.vnil

/-- The number of entries on a spine. -/
def spineLen : Val → Nat
  | .vcons _ t => spineLen t + 1
  | _ => 0

/-- The default value of a base shape (integer zero, false, empty string,
empty collection), as Rust's Default would give. -/
def plainDefault : NTy → Val
  | .ti8 _ => .vi8 0
  | .ti16 _ => .vi16 0
  | .ti64 _ => .vi64 0
  | .tbool _ => .vbool false
  | .tstr _ => .vstr []
  | .tvec _ _ => .vvec .vnil
  | .tset _ _ => .vset .vnil
  | .tmap _ _ _ => .vmap .vnil

/-- The reader's default for a declared field position: None for an
Optional field, the base shape's default otherwise. -/
def defaultVal (t : NTy) : Val :=
  if t.nullable then .vnone else plainDefault t

/-- Modelled from the spec: the NULL ref-flag byte. -/
def refNull : Nat := 0
/-- Modelled from the spec: the NOT_NULL_VALUE ref-flag byte. -/
def refNotNullValue : Nat := 1

/-- A job index for the structural recursions over values: a single
position of a given declared type, the entries of a collection, or the
entries of a map. -/
inductive TyJob where
  | one (t : NTy)
  | many (e : NTy)
  | pairs (kt vt : NTy)

/-- Well-typedness of a value against a declared type, including the
width bounds of the fixed-width integers and the 32-bit bounds of the
length prefixes.  A nullable position holds vnone or vsome of a payload;
a plain position holds the payload directly. -/
def hasTyJ : TyJob → Val → Bool
  | .many e, .vcons h t => hasTyJ (.one e) h && hasTyJ (.many e) t
  | .many _, .vnil => true
  | .many _, _ => false
  | .pairs kt vt, .vcons (.vpair a b) t =>
    hasTyJ (.one kt) a && hasTyJ (.one vt) b && hasTyJ (.pairs kt vt) t
  | .pairs _ _, .vnil => true
  | .pairs _ _, _ => false
  | .one t, .vnone => t.nullable
  | .one t, .vsome x =>
    t.nullable &&
    (match t, x with
     | .ti8 _, .vi8 n => decide (-128 ≤ n) && decide (n < 128)
     | .ti16 _, .vi16 n => decide (-32768 ≤ n) && decide (n < 32768)
     | .ti64 _, .vi64 n =>
       decide (-9223372036854775808 ≤ n) && decide (n < 9223372036854775808)
     | .tbool _, .vbool _ => true
     | .tstr _, .vstr s => s.all (fun b => decide (b < 256)) && decide (s.length < 4294967296)
     | .tvec _ e, .vvec sp => decide (spineLen sp < 2147483648) && hasTyJ (.many e) sp
     | .tset _ e, .vset sp => decide (spineLen sp < 2147483648) && hasTyJ (.many e) sp
     | .tmap _ kt vt, .vmap sp => decide (spineLen sp < 2147483648) && hasTyJ (.pairs kt vt) sp
     | _, _ => false)
  | .one t, v =>
    !t.nullable &&
    (match t, v with
     | .ti8 _, .vi8 n => decide (-128 ≤ n) && decide (n < 128)
     | .ti16 _, .vi16 n => decide (-32768 ≤ n) && decide (n < 32768)
     | .ti64 _, .vi64 n =>
       decide (-9223372036854775808 ≤ n) && decide (n < 9223372036854775808)
     | .tbool _, .vbool _ => true
     | .tstr _, .vstr s => s.all (fun b => decide (b < 256)) && decide (s.length < 4294967296)
     | .tvec _ e, .vvec sp => decide (spineLen sp < 2147483648) && hasTyJ (.many e) sp
     | .tset _ e, .vset sp => decide (spineLen sp < 2147483648) && hasTyJ (.many e) sp
     | .tmap _ kt vt, .vmap sp => decide (spineLen sp < 2147483648) && hasTyJ (.pairs kt vt) sp
     | _, _ => false)

/-- Well-typedness of a single value position. -/
def hasTy (t : NTy) (v : Val) : Bool :=
  hasTyJ (.one t) v

/-! ### The writer (modelled from the spec, sections 4.5 and 4.6) -/

/-- Modelled from the spec: the generated write routine for one declared
position and the bodies of its collection loops.  Every position starts
with a ref-flag byte; an absent Optional writes only the NULL flag; every
present payload is preceded by the NOT_NULL_VALUE flag and the position's
wire type id as a var_uint32, mirroring exactly what the generated reader
of util.rs consumes.  Sequences, sets and maps write a var_int32 entry
count and then each entry through the same position format. -/
def writeValJ : TyJob → Val → List Nat
  | .many e, .vcons h t => writeValJ (.one e) h ++ writeValJ (.many e) t
  | .many _, _ => []
  | .pairs kt vt, .vcons (.vpair a b) t =>
    writeValJ (.one kt) a ++ writeValJ (.one vt) b ++ writeValJ (.pairs kt vt) t
  | .pairs _ _, _ => []
  | .one _, .vnone => [refNull]
  | .one t, .vsome x =>
    refNotNullValue :: (Writer.var_uint32 (ntyTypeId t) ++
      (match t, x with
       | .ti8 _, .vi8 n => [i8ToByte n]
       | .ti16 _, .vi16 n => writeLE 2 (n % 65536).toNat
       | .ti64 _, .vi64 n => writeLE 8 (n % 18446744073709551616).toNat
       | .tbool _, .vbool b => bool_write b
       | .tstr _, .vstr s => Writer.var_uint32 s.length ++ s
       | .tvec _ e, .vvec sp => Writer.var_int32 (spineLen sp) ++ writeValJ (.many e) sp
       | .tset _ e, .vset sp => Writer.var_int32 (spineLen sp) ++ writeValJ (.many e) sp
       | .tmap _ kt vt, .vmap sp => Writer.var_int32 (spineLen sp) ++ writeValJ (.pairs kt vt) sp
       | _, _ => []))
  | .one t, v =>
    refNotNullValue :: (Writer.var_uint32 (ntyTypeId t) ++
      (match t, v with
       | .ti8 _, .vi8 n => [i8ToByte n]
       | .ti16 _, .vi16 n => writeLE 2 (n % 65536).toNat
       | .ti64 _, .vi64 n => writeLE 8 (n % 18446744073709551616).toNat
       | .tbool _, .vbool b => bool_write b
       | .tstr _, .vstr s => Writer.var_uint32 s.length ++ s
       | .tvec _ e, .vvec sp => Writer.var_int32 (spineLen sp) ++ writeValJ (.many e) sp
       | .tset _ e, .vset sp => Writer.var_int32 (spineLen sp) ++ writeValJ (.many e) sp
       | .tmap _ kt vt, .vmap sp => Writer.var_int32 (spineLen sp) ++ writeValJ (.pairs kt vt) sp
       | _, _ => []))

/-- The bytes a write of one declared field position produces. -/
def writeVal (t : NTy) (v : Val) : List Nat :=
  writeValJ (.one t) v

/-! ### Spine-based set and map insertion -/

/-- Membership test on a spine. -/
def spineContains : Val → Val → Bool
  | .vcons h t, x => h == x || spineContains t x
  | _, _ => false

/-- Append one entry at the end of a spine. -/
def spineAppend : Val → Val → Val
  | .vcons h t, x => .vcons h (spineAppend t x)
  | _, x => .vcons x .vnil

/-- HashSet::insert: keep the spine unchanged when the element is already
present, append it otherwise. -/
def setInsert (sp x : Val) : Val :=
  if spineContains sp x then sp else spineAppend sp x

/-- Insert every entry of the second spine into the first, left to right;
this is the loop of the generated HashSet reader. -/
def setFold : Val → Val → Val
  | acc, .vcons h t => setFold (setInsert acc h) t
  | acc, _ => acc

/-- Key-membership test on a spine of vpair cells. -/
def mapKeyContains : Val → Val → Bool
  | .vcons (.vpair a _) t, k => a == k || mapKeyContains t k
  | _, _ => false

/-- Replace the value stored under an existing key (the original key
object is retained, as HashMap::insert does). -/
def mapReplace : Val → Val → Val → Val
  | .vcons (.vpair a b) t, k, v =>
    if a == k then .vcons (.vpair a v) t else .vcons (.vpair a b) (mapReplace t k v)
  | sp, _, _ => sp

/-- HashMap::insert: replace the value when the key exists, append the
pair otherwise. -/
def mapInsert (sp k v : Val) : Val :=
  if mapKeyContains sp k then mapReplace sp k v else spineAppend sp (.vpair k v)

/-- Insert every pair of the second spine into the first, left to right;
this is the loop of the generated HashMap reader. -/
def mapFold : Val → Val → Val
  | acc, .vcons (.vpair k v) t => mapFold (mapInsert acc k v) t
  | acc, _ => acc

/-! ### The generated compatible reader (translated from util.rs) -/

/-- Presenting a decoded payload at a declared reader position: wrapped in
Some for an Optional position, unchanged otherwise. -/
def mkRead (rt : NTy) (x : Val) : Val :=
  if rt.nullable then .vsome x else x

/-- Read a fixed number of collection entries with the supplied entry
reader, building the entry spine in order. -/
def readElems (g : List Nat → Option (Val × List Nat)) : Nat → List Nat → Option (Val × List Nat)
  | 0, bs => some (.vnil, bs)
  | n + 1, bs =>
    match g bs with
    | none => none
    | some (v, bs1) =>
      match readElems g n bs1 with
      | none => none
      | some (sp, bs2) => some (.vcons v sp, bs2)

/-- Read a fixed number of key-value entries with the supplied key and
value readers, building the pair spine in order. -/
def readPairsN (gk gv : List Nat → Option (Val × List Nat)) : Nat → List Nat → Option (Val × List Nat)
  | 0, bs => some (.vnil, bs)
  | n + 1, bs =>
    match gk bs with
    | none => none
    | some (k, bs1) =>
      match gv bs1 with
      | none => none
      | some (v, bs2) =>
        match readPairsN gk gv n bs2 with
        | none => none
        | some (sp, bs3) => some (.vcons (.vpair k v) sp, bs3)

/-- Translated from util.rs (NullableTypeNode::to_deserialize_tokens): the
generated per-position reader.  It always consumes one ref-flag byte; if
the remote (writer) node is nullable and the flag is NULL it yields the
reader default without touching the stream further; otherwise it consumes
a type-id var_uint32 and then decodes the payload according to the
reader's declared shape, presenting it through mkRead.  Collection
entries recurse with the reader and remote child nodes in parallel.  The
fuel argument bounds the declared-type descent and is in excess at the depth
of the reader type. -/
def readValF : Nat → NTy → NTy → List Nat → Option (Val × List Nat)
  | 0, _, _, _ => none
  | f + 1, rt, wt, bs =>
    match bs with
    | [] => none
    | b :: bs1 =>
      if wt.nullable && (byteToI8 b == 0) then some (defaultVal rt, bs1)
      else
        match Reader.var_uint32 bs1 with
        | none => none
        | some (_, bs2) =>
          match rt with
          | .ti8 _ =>
            match bs2 with
            | [] => none
            | c :: bs3 => some (mkRead rt (.vi8 (byteToI8 c)), bs3)
          | .ti16 _ =>
            match readLE 2 bs2 with
            | none => none
            | some (m, bs3) =>
              some (mkRead rt (.vi16 (if m < 32768 then (m : Int) else (m : Int) - 65536)), bs3)
          | .ti64 _ =>
            match readLE 8 bs2 with
            | none => none
            | some (m, bs3) =>
              some (mkRead rt (.vi64 (if m < 9223372036854775808 then (m : Int)
                else (m : Int) - 18446744073709551616)), bs3)
          | .tbool _ =>
            match bool_read bs2 with
            | none => none
            | some (x, bs3) => some (mkRead rt (.vbool x), bs3)
          | .tstr _ =>
            match Reader.var_uint32 bs2 with
            | none => none
            | some (len, bs3) =>
              if len ≤ bs3.length then some (mkRead rt (.vstr (bs3.take len)), bs3.drop len)
              else none
          | .tvec _ e =>
            match Reader.var_int32 bs2 with
            | none => none
            | some (len, bs3) =>
              if len < 0 then none
              else
                match readElems (fun bs => readValF f e (elemTy wt) bs) len.toNat bs3 with
                | none => none
                | some (sp, bs4) => some (mkRead rt (.vvec sp), bs4)
          | .tset _ e =>
            match Reader.var_int32 bs2 with
            | none => none
            | some (len, bs3) =>
              if len < 0 then none
              else
                match readElems (fun bs => readValF f e (elemTy wt) bs) len.toNat bs3 with
                | none => none
                | some (sp, bs4) => some (mkRead rt (.vset (setFold .vnil sp)), bs4)
          | .tmap _ kt vt =>
            match Reader.var_int32 bs2 with
            | none => none
            | some (len, bs3) =>
              if len < 0 then none
              else
                match readPairsN (fun bs => readValF f kt (keyTy wt) bs)
                    (fun bs => readValF f vt (valTy wt) bs) len.toNat bs3 with
                | none => none
                | some (sp, bs4) => some (mkRead rt (.vmap (mapFold .vnil sp)), bs4)

/-- The generated per-position reader at its canonical fuel. -/
def readVal (rt wt : NTy) (bs : List Nat) : Option (Val × List Nat) :=
  readValF (ntyDepth rt) rt wt bs

/-! ### The skip walk (modelled from the spec, section 4.7) -/

/-- Drop exactly n bytes, failing on a short stream. -/
def dropExact (n : Nat) (bs : List Nat) : Option (List Nat) :=
  if n ≤ bs.length then some (bs.drop n) else none

/-- Skip a fixed number of collection entries with the supplied entry
skipper. -/
def skipElems (g : List Nat → Option (List Nat)) : Nat → List Nat → Option (List Nat)
  | 0, bs => some bs
  | n + 1, bs =>
    match g bs with
    | none => none
    | some bs1 => skipElems g n bs1

/-- Modelled from the spec: the skip walk.  Given the writer's field type
it consumes exactly the bytes a matching write would have produced
without interpreting them: the ref flag, then (unless an absent Optional)
the type id and the payload, recursing entry-wise through collections. -/
def skipValF : Nat → NTy → List Nat → Option (List Nat)
  | 0, _, _ => none
  | f + 1, wt, bs =>
    match bs with
    | [] => none
    | b :: bs1 =>
      if wt.nullable && (byteToI8 b == 0) then some bs1
      else
        match Reader.var_uint32 bs1 with
        | none => none
        | some (_, bs2) =>
          match wt with
          | .ti8 _ => dropExact 1 bs2
          | .ti16 _ => dropExact 2 bs2
          | .ti64 _ => dropExact 8 bs2
          | .tbool _ => dropExact 1 bs2
          | .tstr _ =>
            match Reader.var_uint32 bs2 with
            | none => none
            | some (len, bs3) => dropExact len bs3
          | .tvec _ e =>
            match Reader.var_int32 bs2 with
            | none => none
            | some (len, bs3) =>
              if len < 0 then none
              else skipElems (fun bs => skipValF f e bs) len.toNat bs3
          | .tset _ e =>
            match Reader.var_int32 bs2 with
            | none => none
            | some (len, bs3) =>
              if len < 0 then none
              else skipElems (fun bs => skipValF f e bs) len.toNat bs3
          | .tmap _ kt vt =>
            match Reader.var_int32 bs2 with
            | none => none
            | some (len, bs3) =>
              if len < 0 then none
              else skipElems (fun bs =>
                match skipValF f kt bs with
                | none => none
                | some bs1 => skipValF f vt bs1) len.toNat bs3

/-- The skip walk at its canonical fuel. -/
def skipVal (wt : NTy) (bs : List Nat) : Option (List Nat) :=
  skipValF (ntyDepth wt) wt bs

/-! ### The reconciliation semantics of one matched field position -/

/-- A job index for the value-level reconciliation recursion: reader and
writer nodes travel in parallel. -/
inductive RecJob where
  | one (rt wt : NTy)
  | many (re we : NTy)
  | pairs (rk wk rv wv : NTy)

/-- The value the compatible reader materialises for a matched field pair
whose stripped types coincide, as a pure function of the written value:
an absent Optional becomes the reader's default; a present payload loses
or gains its Some wrapper according to the two nullability flags; this
coercion descends through collection entries, and set and map entries
are re-inserted so that entries collapsed by the coercion merge. -/
def reconcileJ : RecJob → Val → Val
  | .many re we, .vcons h t =>
    .vcons (reconcileJ (.one re we) h) (reconcileJ (.many re we) t)
  | .many _ _, v => v
  | .pairs rk wk rv wv, .vcons (.vpair a b) t =>
    .vcons (.vpair (reconcileJ (.one rk wk) a) (reconcileJ (.one rv wv) b))
      (reconcileJ (.pairs rk wk rv wv) t)
  | .pairs _ _ _ _, v => v
  | .one rt _, .vnone => defaultVal rt
  | .one rt wt, .vsome x =>
    mkRead rt
      (match rt, x with
       | .tvec _ e, .vvec sp => .vvec (reconcileJ (.many e (elemTy wt)) sp)
       | .tset _ e, .vset sp => .vset (setFold .vnil (reconcileJ (.many e (elemTy wt)) sp))
       | .tmap _ kt vt, .vmap sp =>
         .vmap (mapFold .vnil (reconcileJ (.pairs kt (keyTy wt) vt (valTy wt)) sp))
       | _, y => y)
  | .one rt wt, v =>
    mkRead rt
      (match rt, v with
       | .tvec _ e, .vvec sp => .vvec (reconcileJ (.many e (elemTy wt)) sp)
       | .tset _ e, .vset sp => .vset (setFold .vnil (reconcileJ (.many e (elemTy wt)) sp))
       | .tmap _ kt vt, .vmap sp =>
         .vmap (mapFold .vnil (reconcileJ (.pairs kt (keyTy wt) vt (valTy wt)) sp))
       | _, y => y)

/-- The reconciliation of one matched position. -/
def reconcileVal (rt wt : NTy) (v : Val) : Val :=
  reconcileJ (.one rt wt) v

/-! ### Factored payload views of one position -/

/-- The payload well-typedness of a present value at a position (the
common body of the two hasTyJ payload matches). -/
def payloadOk (t : NTy) (x : Val) : Bool :=
  match t, x with
  | .ti8 _, .vi8 n => decide (-128 ≤ n) && decide (n < 128)
  | .ti16 _, .vi16 n => decide (-32768 ≤ n) && decide (n < 32768)
  | .ti64 _, .vi64 n =>
    decide (-9223372036854775808 ≤ n) && decide (n < 9223372036854775808)
  | .tbool _, .vbool _ => true
  | .tstr _, .vstr s => s.all (fun b => decide (b < 256)) && decide (s.length < 4294967296)
  | .tvec _ e, .vvec sp => decide (spineLen sp < 2147483648) && hasTyJ (.many e) sp
  | .tset _ e, .vset sp => decide (spineLen sp < 2147483648) && hasTyJ (.many e) sp
  | .tmap _ kt vt, .vmap sp => decide (spineLen sp < 2147483648) && hasTyJ (.pairs kt vt) sp
  | _, _ => false

/-- The payload bytes of a present value at a position (the common body
of the two writeValJ payload matches). -/
def payloadBytes (t : NTy) (x : Val) : List Nat :=
  match t, x with
  | .ti8 _, .vi8 n => [i8ToByte n]
  | .ti16 _, .vi16 n => writeLE 2 (n % 65536).toNat
  | .ti64 _, .vi64 n => writeLE 8 (n % 18446744073709551616).toNat
  | .tbool _, .vbool b => bool_write b
  | .tstr _, .vstr s => Writer.var_uint32 s.length ++ s
  | .tvec _ e, .vvec sp => Writer.var_int32 (spineLen sp) ++ writeValJ (.many e) sp
  | .tset _ e, .vset sp => Writer.var_int32 (spineLen sp) ++ writeValJ (.many e) sp
  | .tmap _ kt vt, .vmap sp => Writer.var_int32 (spineLen sp) ++ writeValJ (.pairs kt vt) sp
  | _, _ => []

/-- The payload reconciliation of a present value (the common body of the
two reconcileJ payload matches). -/
def reconcilePayload (rt wt : NTy) (x : Val) : Val :=
  match rt, x with
  | .tvec _ e, .vvec sp => .vvec (reconcileJ (.many e (elemTy wt)) sp)
  | .tset _ e, .vset sp => .vset (setFold .vnil (reconcileJ (.many e (elemTy wt)) sp))
  | .tmap _ kt vt, .vmap sp =>
    .vmap (mapFold .vnil (reconcileJ (.pairs kt (keyTy wt) vt (valTy wt)) sp))
  | _, y => y

theorem hasTyJ_one_vnone (t : NTy) : hasTyJ (.one t) .vnone = t.nullable := rfl

theorem hasTyJ_one_vsome (t : NTy) (x : Val) :
    hasTyJ (.one t) (.vsome x) = (t.nullable && payloadOk t x) := by
  cases t <;> cases x <;> rfl

theorem hasTyJ_one_plain (t : NTy) (x : Val) (h1 : x ≠ .vnone) (h2 : ∀ y, x ≠ .vsome y) :
    hasTyJ (.one t) x = (!t.nullable && payloadOk t x) := by
  cases x
  case vnone => exact absurd rfl h1
  case vsome y => exact absurd rfl (h2 y)
  all_goals cases t <;> rfl

theorem writeValJ_one_vnone (t : NTy) : writeValJ (.one t) .vnone = [refNull] := rfl

theorem writeValJ_one_vsome (t : NTy) (x : Val) :
    writeValJ (.one t) (.vsome x)
      = refNotNullValue :: (Writer.var_uint32 (ntyTypeId t) ++ payloadBytes t x) := by
  cases t <;> cases x <;> rfl

theorem writeValJ_one_plain (t : NTy) (x : Val) (h1 : x ≠ .vnone) (h2 : ∀ y, x ≠ .vsome y) :
    writeValJ (.one t) x
      = refNotNullValue :: (Writer.var_uint32 (ntyTypeId t) ++ payloadBytes t x) := by
  cases x
  case vnone => exact absurd rfl h1
  case vsome y => exact absurd rfl (h2 y)
  all_goals cases t <;> rfl

theorem reconcileJ_one_vnone (rt wt : NTy) : reconcileJ (.one rt wt) .vnone = defaultVal rt := rfl

theorem reconcileJ_one_vsome (rt wt : NTy) (x : Val) :
    reconcileJ (.one rt wt) (.vsome x) = mkRead rt (reconcilePayload rt wt x) := by
  cases rt <;> cases x <;> rfl

theorem reconcileJ_one_plain (rt wt : NTy) (x : Val) (h1 : x ≠ .vnone) (h2 : ∀ y, x ≠ .vsome y) :
    reconcileJ (.one rt wt) x = mkRead rt (reconcilePayload rt wt x) := by
  cases x
  case vnone => exact absurd rfl h1
  case vsome y => exact absurd rfl (h2 y)
  all_goals cases rt <;> rfl

theorem payloadOk_vnone (t : NTy) : payloadOk t .vnone = false := by cases t <;> rfl

theorem payloadOk_vsome (t : NTy) (x : Val) : payloadOk t (.vsome x) = false := by
  cases t <;> rfl

/-! ### Spine maps and the entry-wise reconciliation views -/

/-- Map a function over the entries of a spine. -/
def spineMap (r : Val → Val) : Val → Val
  | .vcons h t => .vcons (r h) (spineMap r t)
  | v => v

/-- Map two functions over the key and value components of a pair
spine. -/
def spineMapPairs (rk rv : Val → Val) : Val → Val
  | .vcons (.vpair a b) t => .vcons (.vpair (rk a) (rv b)) (spineMapPairs rk rv t)
  | v => v

theorem reconcileJ_many_eq (re we : NTy) (sp : Val) :
    reconcileJ (.many re we) sp = spineMap (reconcileJ (.one re we)) sp := by
  induction sp with
  | vcons h t ih1 ih2 =>
    simp only [reconcileJ, spineMap]
    rw [ih2]
  | _ => rfl

theorem reconcileJ_pairs_eq (rk wk rv wv : NTy) (sp : Val) :
    reconcileJ (.pairs rk wk rv wv) sp
      = spineMapPairs (reconcileJ (.one rk wk)) (reconcileJ (.one rv wv)) sp := by
  induction sp with
  | vcons h t ih1 ih2 =>
    cases h with
    | vpair a b =>
      simp only [reconcileJ, spineMapPairs]
      rw [ih2]
    | _ => rfl
  | _ => rfl

/-! ### Arithmetic round-trip facts -/

theorem ntyDepth_pos (t : NTy) : 1 ≤ ntyDepth t := by
  cases t <;> simp [ntyDepth]

theorem ntyTypeId_lt (t : NTy) : ntyTypeId t < 4294967296 := by
  cases t <;> norm_num [ntyTypeId, tidINT8, tidINT16, tidINT64, tidBOOL,
    tidSTRING, tidARRAY, tidSET, tidMAP]

theorem byteToI8_i8ToByte (n : Int) (h1 : -128 ≤ n) (h2 : n < 128) :
    byteToI8 (i8ToByte n) = n := by
  unfold i8ToByte byteToI8
  split <;> omega

theorem i16_payload_roundtrip (n : Int) (h1 : -32768 ≤ n) (h2 : n < 32768) :
    (n % 65536).toNat < 65536 ∧
    ((if (n % 65536).toNat < 32768 then ((n % 65536).toNat : Int)
      else ((n % 65536).toNat : Int) - 65536) = n) := by
  constructor
  · omega
  · split <;> omega

theorem i64_payload_roundtrip (n : Int)
    (h1 : -9223372036854775808 ≤ n) (h2 : n < 9223372036854775808) :
    (n % 18446744073709551616).toNat < 18446744073709551616 ∧
    ((if (n % 18446744073709551616).toNat < 9223372036854775808
      then ((n % 18446744073709551616).toNat : Int)
      else ((n % 18446744073709551616).toNat : Int) - 18446744073709551616) = n) := by
  constructor
  · omega
  · split <;> omega

theorem dropExact_append (xs rest : List Nat) :
    dropExact xs.length (xs ++ rest) = some rest := by
  simp [dropExact, List.drop_left]

theorem dropExact_writeLE (w m : Nat) (rest : List Nat) :
    dropExact w (writeLE w m ++ rest) = some rest := by
  obtain ⟨xs, hxs⟩ : ∃ xs, writeLE w m = xs := ⟨_, rfl⟩
  rw [hxs, ← writeLE_length w m, hxs]
  exact dropExact_append _ _

/-! ### Entry-loop round-trips -/

theorem readElems_write (we : NTy) (g : List Nat → Option (Val × List Nat)) (r : Val → Val)
    (hg : ∀ (x : Val) (rest : List Nat), hasTyJ (.one we) x = true →
      g (writeValJ (.one we) x ++ rest) = some (r x, rest)) :
    ∀ (sp : Val) (rest : List Nat), hasTyJ (.many we) sp = true →
      readElems g (spineLen sp) (writeValJ (.many we) sp ++ rest)
        = some (spineMap r sp, rest) := by
  intro sp
  induction sp
  case vcons h t ih1 ih2 =>
    intro rest hty
    rw [show hasTyJ (.many we) (.vcons h t)
        = (hasTyJ (.one we) h && hasTyJ (.many we) t) from rfl, Bool.and_eq_true] at hty
    have hh := hg h (writeValJ (.many we) t ++ rest) hty.1
    have ht := ih2 rest hty.2
    show readElems g (spineLen t + 1)
        ((writeValJ (.one we) h ++ writeValJ (.many we) t) ++ rest) = _
    rw [List.append_assoc]
    simp only [readElems, hh, ht, spineMap]
  case vnil => intro rest hty; rfl
  all_goals (intro rest hty; simp [hasTyJ] at hty)

theorem readPairsN_write (kt vt : NTy)
    (gk gv : List Nat → Option (Val × List Nat)) (rk rv : Val → Val)
    (hgk : ∀ (x : Val) (rest : List Nat), hasTyJ (.one kt) x = true →
      gk (writeValJ (.one kt) x ++ rest) = some (rk x, rest))
    (hgv : ∀ (x : Val) (rest : List Nat), hasTyJ (.one vt) x = true →
      gv (writeValJ (.one vt) x ++ rest) = some (rv x, rest)) :
    ∀ (sp : Val) (rest : List Nat), hasTyJ (.pairs kt vt) sp = true →
      readPairsN gk gv (spineLen sp) (writeValJ (.pairs kt vt) sp ++ rest)
        = some (spineMapPairs rk rv sp, rest) := by
  intro sp
  induction sp
  case vcons h t ih1 ih2 =>
    intro rest hty
    cases h
    case vpair a b =>
      rw [show hasTyJ (.pairs kt vt) (.vcons (.vpair a b) t)
          = (hasTyJ (.one kt) a && hasTyJ (.one vt) b && hasTyJ (.pairs kt vt) t) from rfl,
        Bool.and_eq_true, Bool.and_eq_true] at hty
      have ha := hgk a (writeValJ (.one vt) b ++ (writeValJ (.pairs kt vt) t ++ rest)) hty.1.1
      have hb := hgv b (writeValJ (.pairs kt vt) t ++ rest) hty.1.2
      have ht := ih2 rest hty.2
      show readPairsN gk gv (spineLen t + 1)
          ((writeValJ (.one kt) a ++ writeValJ (.one vt) b ++ writeValJ (.pairs kt vt) t) ++ rest)
          = _
      rw [List.append_assoc, List.append_assoc]
      simp only [readPairsN, ha, hb, ht, spineMapPairs]
    all_goals simp [hasTyJ] at hty
  case vnil => intro rest hty; rfl
  all_goals (intro rest hty; simp [hasTyJ] at hty)

theorem skipElems_write (we : NTy) (g : List Nat → Option (List Nat))
    (hg : ∀ (x : Val) (rest : List Nat), hasTyJ (.one we) x = true →
      g (writeValJ (.one we) x ++ rest) = some rest) :
    ∀ (sp : Val) (rest : List Nat), hasTyJ (.many we) sp = true →
      skipElems g (spineLen sp) (writeValJ (.many we) sp ++ rest) = some rest := by
  intro sp
  induction sp
  case vcons h t ih1 ih2 =>
    intro rest hty
    rw [show hasTyJ (.many we) (.vcons h t)
        = (hasTyJ (.one we) h && hasTyJ (.many we) t) from rfl, Bool.and_eq_true] at hty
    have hh := hg h (writeValJ (.many we) t ++ rest) hty.1
    have ht := ih2 rest hty.2
    show skipElems g (spineLen t + 1)
        ((writeValJ (.one we) h ++ writeValJ (.many we) t) ++ rest) = _
    rw [List.append_assoc]
    simp only [skipElems, hh, ht]
  case vnil => intro rest hty; rfl
  all_goals (intro rest hty; simp [hasTyJ] at hty)

theorem skipPairs_write (kt vt : NTy) (gk gv : List Nat → Option (List Nat))
    (hgk : ∀ (x : Val) (rest : List Nat), hasTyJ (.one kt) x = true →
      gk (writeValJ (.one kt) x ++ rest) = some rest)
    (hgv : ∀ (x : Val) (rest : List Nat), hasTyJ (.one vt) x = true →
      gv (writeValJ (.one vt) x ++ rest) = some rest) :
    ∀ (sp : Val) (rest : List Nat), hasTyJ (.pairs kt vt) sp = true →
      skipElems (fun bs =>
        match gk bs with
        | none => none
        | some bs1 => gv bs1) (spineLen sp) (writeValJ (.pairs kt vt) sp ++ rest)
        = some rest := by
  intro sp
  induction sp
  case vcons h t ih1 ih2 =>
    intro rest hty
    cases h
    case vpair a b =>
      rw [show hasTyJ (.pairs kt vt) (.vcons (.vpair a b) t)
          = (hasTyJ (.one kt) a && hasTyJ (.one vt) b && hasTyJ (.pairs kt vt) t) from rfl,
        Bool.and_eq_true, Bool.and_eq_true] at hty
      have ha := hgk a (writeValJ (.one vt) b ++ (writeValJ (.pairs kt vt) t ++ rest)) hty.1.1
      have hb := hgv b (writeValJ (.pairs kt vt) t ++ rest) hty.1.2
      have ht := ih2 rest hty.2
      show skipElems _ (spineLen t + 1)
          ((writeValJ (.one kt) a ++ writeValJ (.one vt) b ++ writeValJ (.pairs kt vt) t) ++ rest)
          = _
      rw [List.append_assoc, List.append_assoc]
      simp only [skipElems, ha, hb, ht]
    all_goals simp [hasTyJ] at hty
  case vnil => intro rest hty; rfl
  all_goals (intro rest hty; simp [hasTyJ] at hty)

/-! ### The skip walk consumes exactly one written position (Lemma A) -/

theorem var_int32_spine_roundtrip (n : Nat) (rest : List Nat) (hn : n < 2147483648) :
    Reader.var_int32 (Writer.var_int32 (n : Int) ++ rest) = some ((n : Int), rest) := by
  exact var_int32_roundtrip (n : Int) rest (by omega) (by omega)

theorem skip_payload_step (f : Nat)
    (ih : ∀ (wt : NTy) (v : Val) (rest : List Nat), ntyDepth wt ≤ f →
      hasTyJ (.one wt) v = true →
      skipValF f wt (writeValJ (.one wt) v ++ rest) = some rest)
    (wt : NTy) (x : Val) (rest : List Nat) (hd : ntyDepth wt ≤ f + 1)
    (hpay : payloadOk wt x = true) :
    skipValF (f + 1) wt
      ((refNotNullValue :: (Writer.var_uint32 (ntyTypeId wt) ++ payloadBytes wt x)) ++ rest)
      = some rest := by
  rw [List.cons_append, List.append_assoc]
  have hflag : (wt.nullable && (byteToI8 refNotNullValue == 0)) = false := by
    simp [byteToI8, refNotNullValue]
  simp only [skipValF, hflag, Bool.false_eq_true, if_false,
    var_uint32_roundtrip _ _ (ntyTypeId_lt wt)]
  cases wt with
  | ti8 nl =>
    cases x <;> simp [payloadOk] at hpay
    simp [payloadBytes, dropExact]
  | ti16 nl =>
    cases x <;> simp [payloadOk] at hpay
    rename_i n
    simp only [payloadBytes]
    exact dropExact_writeLE 2 _ rest
  | ti64 nl =>
    cases x <;> simp [payloadOk] at hpay
    rename_i n
    simp only [payloadBytes]
    exact dropExact_writeLE 8 _ rest
  | tbool nl =>
    cases x <;> simp [payloadOk] at hpay
    rename_i b
    cases b <;> simp [payloadBytes, bool_write, dropExact]
  | tstr nl =>
    cases x <;> simp [payloadOk] at hpay
    rename_i s
    simp only [payloadBytes, List.append_assoc,
      var_uint32_roundtrip s.length (s ++ rest) hpay.2]
    rw [dropExact_append]
  | tvec nl e =>
    cases x <;> simp [payloadOk] at hpay
    rename_i sp
    have hde : ntyDepth e ≤ f := by
      simp only [ntyDepth] at hd; omega
    simp only [payloadBytes, List.append_assoc,
      var_int32_spine_roundtrip (spineLen sp) _ hpay.1]
    have hneg : ¬ ((spineLen sp : Int) < 0) := by omega
    simp only [hneg, if_false, Int.toNat_natCast]
    exact skipElems_write e (fun bs => skipValF f e bs)
      (fun y r hy => ih e y r hde hy) sp rest hpay.2
  | tset nl e =>
    cases x <;> simp [payloadOk] at hpay
    rename_i sp
    have hde : ntyDepth e ≤ f := by
      simp only [ntyDepth] at hd; omega
    simp only [payloadBytes, List.append_assoc,
      var_int32_spine_roundtrip (spineLen sp) _ hpay.1]
    have hneg : ¬ ((spineLen sp : Int) < 0) := by omega
    simp only [hneg, if_false, Int.toNat_natCast]
    exact skipElems_write e (fun bs => skipValF f e bs)
      (fun y r hy => ih e y r hde hy) sp rest hpay.2
  | tmap nl kt vt =>
    cases x <;> simp [payloadOk] at hpay
    rename_i sp
    have hdk : ntyDepth kt ≤ f := by
      have := Nat.le_max_left (ntyDepth kt) (ntyDepth vt)
      simp only [ntyDepth] at hd; omega
    have hdv : ntyDepth vt ≤ f := by
      have := Nat.le_max_right (ntyDepth kt) (ntyDepth vt)
      simp only [ntyDepth] at hd; omega
    simp only [payloadBytes, List.append_assoc,
      var_int32_spine_roundtrip (spineLen sp) _ hpay.1]
    have hneg : ¬ ((spineLen sp : Int) < 0) := by omega
    simp only [hneg, if_false, Int.toNat_natCast]
    exact skipPairs_write kt vt (skipValF f kt) (skipValF f vt)
      (fun y r hy => ih kt y r hdk hy)
      (fun y r hy => ih vt y r hdv hy) sp rest hpay.2

theorem skipValF_write (f : Nat) :
    ∀ (wt : NTy) (v : Val) (rest : List Nat),
      ntyDepth wt ≤ f → hasTyJ (.one wt) v = true →
      skipValF f wt (writeValJ (.one wt) v ++ rest) = some rest := by
  induction f with
  | zero =>
    intro wt v rest hd _
    have := ntyDepth_pos wt
    omega
  | succ f ih =>
    intro wt v rest hd hty
    cases v
    case vnone =>
      rw [hasTyJ_one_vnone] at hty
      rw [writeValJ_one_vnone]
      simp [skipValF, refNull, byteToI8, hty]
    case vsome x =>
      rw [hasTyJ_one_vsome, Bool.and_eq_true] at hty
      rw [writeValJ_one_vsome]
      exact skip_payload_step f ih wt x rest hd hty.2
    all_goals (
      rw [hasTyJ_one_plain _ _ (fun h => Val.noConfusion h) (fun y h => Val.noConfusion h),
        Bool.and_eq_true] at hty
      rw [writeValJ_one_plain _ _ (fun h => Val.noConfusion h) (fun y h => Val.noConfusion h)]
      exact skip_payload_step f ih wt _ rest hd hty.2)

/-- The skip walk at canonical fuel consumes exactly the bytes one write
produced. -/
theorem skipVal_write (wt : NTy) (v : Val) (rest : List Nat) (hty : hasTy wt v = true) :
    skipVal wt (writeVal wt v ++ rest) = some rest :=
  skipValF_write (ntyDepth wt) wt v rest (Nat.le_refl _) hty

/-! ### The reader decodes exactly one written position (Lemma B) -/

theorem read_payload_step (f : Nat)
    (ihA : ∀ (rt wt : NTy) (v : Val) (rest : List Nat), ntyDepth rt ≤ f →
      stripNT rt = stripNT wt → hasTyJ (.one wt) v = true →
      readValF f rt wt (writeValJ (.one wt) v ++ rest)
        = some (reconcileJ (.one rt wt) v, rest))
    (rt wt : NTy) (x : Val) (rest : List Nat) (hd : ntyDepth rt ≤ f + 1)
    (hstrip : stripNT rt = stripNT wt) (hpay : payloadOk wt x = true) :
    readValF (f + 1) rt wt
      ((refNotNullValue :: (Writer.var_uint32 (ntyTypeId wt) ++ payloadBytes wt x)) ++ rest)
      = some (mkRead rt (reconcilePayload rt wt x), rest) := by
  rw [List.cons_append, List.append_assoc]
  have hflag : (wt.nullable && (byteToI8 refNotNullValue == 0)) = false := by
    simp [byteToI8, refNotNullValue]
  simp only [readValF, hflag, Bool.false_eq_true, if_false,
    var_uint32_roundtrip _ _ (ntyTypeId_lt wt)]
  cases rt with
  | ti8 rnl =>
    cases wt <;> simp [stripNT] at hstrip
    cases x <;> simp [payloadOk] at hpay
    rename_i n
    simp [payloadBytes, reconcilePayload, byteToI8_i8ToByte n hpay.1 hpay.2]
  | ti16 rnl =>
    cases wt <;> simp [stripNT] at hstrip
    cases x <;> simp [payloadOk] at hpay
    rename_i n
    have h := i16_payload_roundtrip n hpay.1 hpay.2
    simp only [payloadBytes, readLE_writeLE 2 _ rest (by exact_mod_cast h.1),
      reconcilePayload]
    rw [h.2]
  | ti64 rnl =>
    cases wt <;> simp [stripNT] at hstrip
    cases x <;> simp [payloadOk] at hpay
    rename_i n
    have h := i64_payload_roundtrip n hpay.1 hpay.2
    simp only [payloadBytes, readLE_writeLE 8 _ rest (by exact_mod_cast h.1),
      reconcilePayload]
    rw [h.2]
  | tbool rnl =>
    cases wt <;> simp [stripNT] at hstrip
    cases x <;> simp [payloadOk] at hpay
    rename_i b
    cases b <;> simp [payloadBytes, bool_write, bool_read, reconcilePayload]
  | tstr rnl =>
    cases wt <;> simp [stripNT] at hstrip
    cases x <;> simp [payloadOk] at hpay
    rename_i s
    have hle : s.length ≤ (s ++ rest).length := by
      simp [List.length_append]
    simp only [payloadBytes, List.append_assoc,
      var_uint32_roundtrip s.length (s ++ rest) hpay.2, hle, if_true,
      List.take_left, List.drop_left, reconcilePayload]
  | tvec rnl re =>
    cases wt <;> simp [stripNT] at hstrip
    rename_i wnl we
    cases x <;> simp [payloadOk] at hpay
    rename_i sp
    have hde : ntyDepth re ≤ f := by
      simp only [ntyDepth] at hd; omega
    simp only [payloadBytes, List.append_assoc,
      var_int32_spine_roundtrip (spineLen sp) _ hpay.1]
    have hneg : ¬ ((spineLen sp : Int) < 0) := by omega
    simp only [hneg, if_false, Int.toNat_natCast, elemTy]
    rw [readElems_write we (fun bs => readValF f re we bs) (reconcileJ (.one re we))
      (fun y r hy => ihA re we y r hde hstrip hy) sp rest hpay.2]
    simp [reconcilePayload, elemTy, reconcileJ_many_eq]
  | tset rnl re =>
    cases wt <;> simp [stripNT] at hstrip
    rename_i wnl we
    cases x <;> simp [payloadOk] at hpay
    rename_i sp
    have hde : ntyDepth re ≤ f := by
      simp only [ntyDepth] at hd; omega
    simp only [payloadBytes, List.append_assoc,
      var_int32_spine_roundtrip (spineLen sp) _ hpay.1]
    have hneg : ¬ ((spineLen sp : Int) < 0) := by omega
    simp only [hneg, if_false, Int.toNat_natCast, elemTy]
    rw [readElems_write we (fun bs => readValF f re we bs) (reconcileJ (.one re we))
      (fun y r hy => ihA re we y r hde hstrip hy) sp rest hpay.2]
    simp [reconcilePayload, elemTy, reconcileJ_many_eq]
  | tmap rnl rk rv =>
    cases wt <;> simp [stripNT] at hstrip
    rename_i wnl wk wv
    cases x <;> simp [payloadOk] at hpay
    rename_i sp
    have hdk : ntyDepth rk ≤ f := by
      have := Nat.le_max_left (ntyDepth rk) (ntyDepth rv)
      simp only [ntyDepth] at hd; omega
    have hdv : ntyDepth rv ≤ f := by
      have := Nat.le_max_right (ntyDepth rk) (ntyDepth rv)
      simp only [ntyDepth] at hd; omega
    simp only [payloadBytes, List.append_assoc,
      var_int32_spine_roundtrip (spineLen sp) _ hpay.1]
    have hneg : ¬ ((spineLen sp : Int) < 0) := by omega
    simp only [hneg, if_false, Int.toNat_natCast, keyTy, valTy]
    rw [readPairsN_write wk wv (fun bs => readValF f rk wk bs) (fun bs => readValF f rv wv bs)
      (reconcileJ (.one rk wk)) (reconcileJ (.one rv wv))
      (fun y r hy => ihA rk wk y r hdk hstrip.1 hy)
      (fun y r hy => ihA rv wv y r hdv hstrip.2 hy) sp rest hpay.2]
    simp [reconcilePayload, keyTy, valTy, reconcileJ_pairs_eq]

theorem readValF_write (f : Nat) :
    ∀ (rt wt : NTy) (v : Val) (rest : List Nat),
      ntyDepth rt ≤ f → stripNT rt = stripNT wt → hasTyJ (.one wt) v = true →
      readValF f rt wt (writeValJ (.one wt) v ++ rest)
        = some (reconcileJ (.one rt wt) v, rest) := by
  induction f with
  | zero =>
    intro rt wt v rest hd _ _
    have := ntyDepth_pos rt
    omega
  | succ f ih =>
    intro rt wt v rest hd hstrip hty
    cases v
    case vnone =>
      rw [hasTyJ_one_vnone] at hty
      rw [writeValJ_one_vnone, reconcileJ_one_vnone]
      simp [readValF, refNull, byteToI8, hty]
    case vsome x =>
      rw [hasTyJ_one_vsome, Bool.and_eq_true] at hty
      rw [writeValJ_one_vsome, reconcileJ_one_vsome]
      exact read_payload_step f ih rt wt x rest hd hstrip hty.2
    all_goals (
      rw [hasTyJ_one_plain _ _ (fun h => Val.noConfusion h) (fun y h => Val.noConfusion h),
        Bool.and_eq_true] at hty
      rw [writeValJ_one_plain _ _ (fun h => Val.noConfusion h) (fun y h => Val.noConfusion h),
        reconcileJ_one_plain _ _ _ (fun h => Val.noConfusion h) (fun y h => Val.noConfusion h)]
      exact read_payload_step f ih rt wt _ rest hd hstrip hty.2)

/-- Lemma B at canonical fuel: the generated reader applied to one
written position of a matched field pair yields exactly the reconciled
value and consumes exactly the written bytes. -/
theorem readVal_write (rt wt : NTy) (v : Val) (rest : List Nat)
    (hstrip : stripNT rt = stripNT wt) (hty : hasTy wt v = true) :
    readVal rt wt (writeVal wt v ++ rest) = some (reconcileVal rt wt v, rest) :=
  readValF_write (ntyDepth rt) rt wt v rest (Nat.le_refl _) hstrip hty

/-! ### Well-formed values and identity reconciliation -/

/-- No entry of a spine occurs twice (the invariant a HashSet's iteration
spine satisfies). -/
def spineNodup : Val → Bool
  | .vcons h t => !(spineContains t h) && spineNodup t
  | _ => true

/-- No key of a pair spine occurs twice (the invariant a HashMap's
iteration spine satisfies). -/
def spineKeyNodup : Val → Bool
  | .vcons (.vpair a _) t => !(mapKeyContains t a) && spineKeyNodup t
  | .vcons _ t => spineKeyNodup t
  | _ => true

/-- Well-formedness of a value: the entry spines of every set are
duplicate-free and the entry spines of every map are key-duplicate-free,
recursively. -/
def wfVal : Val → Bool
  | .vsome x => wfVal x
  | .vcons h t => wfVal h && wfVal t
  | .vpair a b => wfVal a && wfVal b
  | .vvec sp => wfVal sp
  | .vset sp => spineNodup sp && wfVal sp
  | .vmap sp => spineKeyNodup sp && wfVal sp
  | _ => true

/-- A value is a proper entry spine (a vcons chain ending in vnil). -/
def isSpine : Val → Bool
  | .vnil => true
  | .vcons _ t => isSpine t
  | _ => false

/-- Glue two spines end to end. -/
def spineGlue : Val → Val → Val
  | .vcons h t, b => .vcons h (spineGlue t b)
  | _, b => b

theorem spineGlue_vnil (sp : Val) : spineGlue .vnil sp = sp := rfl

theorem spineGlue_vnil_right (acc : Val) (h : isSpine acc = true) :
    spineGlue acc .vnil = acc := by
  induction acc with
  | vcons a t ih1 ih2 =>
    rw [show isSpine (.vcons a t) = isSpine t from rfl] at h
    simp only [spineGlue, ih2 h]
  | vnil => rfl
  | _ => simp [isSpine] at h

theorem isSpine_spineAppend (acc h : Val) (ha : isSpine acc = true) :
    isSpine (spineAppend acc h) = true := by
  induction acc with
  | vcons a t ih1 ih2 =>
    rw [show isSpine (.vcons a t) = isSpine t from rfl] at ha
    simp only [spineAppend, isSpine, ih2 ha]
  | vnil => rfl
  | _ => simp [isSpine] at ha

theorem spineContains_spineAppend (acc h x : Val) :
    spineContains (spineAppend acc h) x = (spineContains acc x || h == x) := by
  induction acc with
  | vcons a t ih1 ih2 =>
    simp only [spineAppend, spineContains, ih2]
    cases a == x <;> simp
  | _ => simp [spineAppend, spineContains]

theorem spineGlue_spineAppend (acc h t : Val) :
    spineGlue (spineAppend acc h) t = spineGlue acc (.vcons h t) := by
  induction acc with
  | vcons a s ih1 ih2 => simp only [spineAppend, spineGlue, ih2]
  | _ => rfl

theorem setFold_disjoint :
    ∀ (sp acc : Val), isSpine sp = true → isSpine acc = true → spineNodup sp = true →
      (∀ x, spineContains sp x = true → spineContains acc x = false) →
      setFold acc sp = spineGlue acc sp := by
  intro sp
  induction sp with
  | vcons h t ih1 ih2 =>
    intro acc hsp hacc hnd hdisj
    rw [show isSpine (.vcons h t) = isSpine t from rfl] at hsp
    rw [show spineNodup (.vcons h t) = (!(spineContains t h) && spineNodup t) from rfl,
      Bool.and_eq_true] at hnd
    have hh : spineContains acc h = false := by
      apply hdisj
      simp [spineContains]
    rw [show setFold acc (.vcons h t) = setFold (setInsert acc h) t from rfl]
    rw [show setInsert acc h = spineAppend acc h from by simp [setInsert, hh]]
    rw [ih2 (spineAppend acc h) hsp (isSpine_spineAppend acc h hacc) hnd.2]
    · exact spineGlue_spineAppend acc h t
    · intro x hx
      rw [spineContains_spineAppend]
      have hax : spineContains acc x = false := by
        apply hdisj
        simp [spineContains, hx]
      have hhx : (h == x) = false := by
        by_contra hc
        have heq : h = x := by
          have := Bool.of_not_eq_false hc
          exact eq_of_beq this
        subst heq
        rw [hx] at hnd
        simp at hnd
      rw [hax, hhx]
      rfl
  | vnil =>
    intro acc _ hacc _ _
    rw [show setFold acc .vnil = acc from rfl, spineGlue_vnil_right acc hacc]
  | _ =>
    intro acc hsp _ _ _
    simp [isSpine] at hsp

theorem setFold_vnil_of_nodup (sp : Val) (hsp : isSpine sp = true)
    (hnd : spineNodup sp = true) :
    setFold .vnil sp = sp := by
  rw [setFold_disjoint sp .vnil hsp rfl hnd (fun x _ => rfl), spineGlue_vnil]

/-- A value is a proper pair spine (vcons chain of vpair cells ending in
vnil). -/
def isPairSpine : Val → Bool
  | .vnil => true
  | .vcons (.vpair _ _) t => isPairSpine t
  | _ => false

theorem isSpine_of_isPairSpine (sp : Val) (h : isPairSpine sp = true) :
    isSpine sp = true := by
  induction sp with
  | vcons a t ih1 ih2 =>
    cases a <;> simp [isPairSpine] at h
    simpa [isSpine] using ih2 h
  | vnil => rfl
  | _ => simp [isPairSpine] at h

theorem isPairSpine_spineAppend (acc k v : Val) (ha : isPairSpine acc = true) :
    isPairSpine (spineAppend acc (.vpair k v)) = true := by
  induction acc with
  | vcons a t ih1 ih2 =>
    cases a <;> simp [isPairSpine] at ha
    rename_i ka va
    simpa [spineAppend, isPairSpine] using ih2 ha
  | vnil => rfl
  | _ => simp [isPairSpine] at ha

theorem mapKeyContains_spineAppend (acc k v x : Val) (hps : isPairSpine acc = true) :
    mapKeyContains (spineAppend acc (.vpair k v)) x
      = (mapKeyContains acc x || k == x) := by
  induction acc with
  | vcons a t ih1 ih2 =>
    cases a <;> simp [isPairSpine] at hps
    rename_i ka va
    simp only [spineAppend, mapKeyContains, ih2 hps]
    cases ka == x <;> simp
  | vnil => simp [spineAppend, mapKeyContains]
  | _ => simp [isPairSpine] at hps

theorem mapFold_disjoint :
    ∀ (sp acc : Val), isPairSpine sp = true → isPairSpine acc = true →
      spineKeyNodup sp = true →
      (∀ x, mapKeyContains sp x = true → mapKeyContains acc x = false) →
      mapFold acc sp = spineGlue acc sp := by
  intro sp
  induction sp with
  | vcons h t ih1 ih2 =>
    intro acc hsp hacc hnd hdisj
    cases h <;> simp [isPairSpine] at hsp
    rename_i k v
    rw [show spineKeyNodup (.vcons (.vpair k v) t)
        = (!(mapKeyContains t k) && spineKeyNodup t) from rfl, Bool.and_eq_true] at hnd
    have hh : mapKeyContains acc k = false := by
      apply hdisj
      simp [mapKeyContains]
    rw [show mapFold acc (.vcons (.vpair k v) t) = mapFold (mapInsert acc k v) t from rfl]
    rw [show mapInsert acc k v = spineAppend acc (.vpair k v) from by simp [mapInsert, hh]]
    rw [ih2 (spineAppend acc (.vpair k v)) hsp
      (isPairSpine_spineAppend acc k v hacc) hnd.2]
    · exact spineGlue_spineAppend acc (.vpair k v) t
    · intro x hx
      rw [mapKeyContains_spineAppend acc k v x hacc]
      have hax : mapKeyContains acc x = false := by
        apply hdisj
        simp [mapKeyContains, hx]
      have hhx : (k == x) = false := by
        by_contra hc
        have heq : k = x := by
          have := Bool.of_not_eq_false hc
          exact eq_of_beq this
        subst heq
        rw [hx] at hnd
        simp at hnd
      rw [hax, hhx]
      rfl
  | vnil =>
    intro acc _ hacc _ _
    rw [show mapFold acc .vnil = acc from rfl,
      spineGlue_vnil_right acc (isSpine_of_isPairSpine acc hacc)]
  | _ =>
    intro acc hsp _ _ _
    simp [isPairSpine] at hsp

theorem mapFold_vnil_of_nodup (sp : Val) (hsp : isPairSpine sp = true)
    (hnd : spineKeyNodup sp = true) :
    mapFold .vnil sp = sp := by
  rw [mapFold_disjoint sp .vnil hsp rfl hnd (fun x _ => rfl), spineGlue_vnil]

theorem hasTyJ_many_isSpine (e : NTy) :
    ∀ sp, hasTyJ (.many e) sp = true → isSpine sp = true := by
  intro sp
  induction sp with
  | vcons h t ih1 ih2 =>
    intro hty
    rw [show hasTyJ (.many e) (.vcons h t)
        = (hasTyJ (.one e) h && hasTyJ (.many e) t) from rfl, Bool.and_eq_true] at hty
    simpa [isSpine] using ih2 hty.2
  | vnil => intro _; rfl
  | _ => intro hty; simp [hasTyJ] at hty

theorem hasTyJ_pairs_isPairSpine (kt vt : NTy) :
    ∀ sp, hasTyJ (.pairs kt vt) sp = true → isPairSpine sp = true := by
  intro sp
  induction sp with
  | vcons h t ih1 ih2 =>
    intro hty
    cases h <;> simp [hasTyJ] at hty
    simpa [isPairSpine] using ih2 hty.2
  | vnil => intro _; rfl
  | _ => intro hty; simp [hasTyJ] at hty

theorem reconcileJ_many_id (e : NTy)
    (hOne : ∀ x, hasTyJ (.one e) x = true → wfVal x = true → reconcileJ (.one e e) x = x) :
    ∀ sp, hasTyJ (.many e) sp = true → wfVal sp = true → reconcileJ (.many e e) sp = sp := by
  intro sp
  induction sp with
  | vcons h t ih1 ih2 =>
    intro hty hwf
    rw [show hasTyJ (.many e) (.vcons h t)
        = (hasTyJ (.one e) h && hasTyJ (.many e) t) from rfl, Bool.and_eq_true] at hty
    rw [show wfVal (.vcons h t) = (wfVal h && wfVal t) from rfl, Bool.and_eq_true] at hwf
    simp only [reconcileJ, hOne h hty.1 hwf.1, ih2 hty.2 hwf.2]
  | _ => intro _ _; rfl

theorem reconcileJ_pairs_id (kt vt : NTy)
    (hK : ∀ x, hasTyJ (.one kt) x = true → wfVal x = true → reconcileJ (.one kt kt) x = x)
    (hV : ∀ x, hasTyJ (.one vt) x = true → wfVal x = true → reconcileJ (.one vt vt) x = x) :
    ∀ sp, hasTyJ (.pairs kt vt) sp = true → wfVal sp = true →
      reconcileJ (.pairs kt kt vt vt) sp = sp := by
  intro sp
  induction sp with
  | vcons h t ih1 ih2 =>
    intro hty hwf
    cases h <;> try rfl
    rename_i a b
    rw [show hasTyJ (.pairs kt vt) (.vcons (.vpair a b) t)
        = (hasTyJ (.one kt) a && hasTyJ (.one vt) b && hasTyJ (.pairs kt vt) t) from rfl,
      Bool.and_eq_true, Bool.and_eq_true] at hty
    rw [show wfVal (.vcons (.vpair a b) t) = ((wfVal a && wfVal b) && wfVal t) from rfl,
      Bool.and_eq_true, Bool.and_eq_true] at hwf
    simp only [reconcileJ, hK a hty.1.1 hwf.1.1, hV b hty.1.2 hwf.1.2, ih2 hty.2 hwf.2]
  | _ => intro _ _; rfl

theorem reconcile_id_fuel (f : Nat) :
    ∀ (t : NTy) (v : Val), ntyDepth t ≤ f → hasTyJ (.one t) v = true → wfVal v = true →
      reconcileJ (.one t t) v = v := by
  induction f with
  | zero =>
    intro t v hd _ _
    have := ntyDepth_pos t
    omega
  | succ f ih =>
    intro t v hd hty hwf
    have hpayload : ∀ (x : Val), payloadOk t x = true → wfVal x = true →
        reconcilePayload t t x = x := by
      intro x hpay hwfx
      cases t with
      | tvec nl e =>
        cases x <;> simp [payloadOk] at hpay
        rename_i sp
        have hde : ntyDepth e ≤ f := by simp only [ntyDepth] at hd; omega
        simp only [reconcilePayload, elemTy]
        rw [reconcileJ_many_id e (fun y hy hw => ih e y hde hy hw) sp hpay.2 hwfx]
      | tset nl e =>
        cases x <;> simp [payloadOk] at hpay
        rename_i sp
        have hde : ntyDepth e ≤ f := by simp only [ntyDepth] at hd; omega
        rw [show wfVal (Val.vset sp) = (spineNodup sp && wfVal sp) from rfl,
          Bool.and_eq_true] at hwfx
        simp only [reconcilePayload, elemTy]
        rw [reconcileJ_many_id e (fun y hy hw => ih e y hde hy hw) sp hpay.2 hwfx.2,
          setFold_vnil_of_nodup sp (hasTyJ_many_isSpine e sp hpay.2) hwfx.1]
      | tmap nl kt vt =>
        cases x <;> simp [payloadOk] at hpay
        rename_i sp
        have hdk : ntyDepth kt ≤ f := by
          have := Nat.le_max_left (ntyDepth kt) (ntyDepth vt)
          simp only [ntyDepth] at hd; omega
        have hdv : ntyDepth vt ≤ f := by
          have := Nat.le_max_right (ntyDepth kt) (ntyDepth vt)
          simp only [ntyDepth] at hd; omega
        rw [show wfVal (Val.vmap sp) = (spineKeyNodup sp && wfVal sp) from rfl,
          Bool.and_eq_true] at hwfx
        simp only [reconcilePayload, keyTy, valTy]
        rw [reconcileJ_pairs_id kt vt (fun y hy hw => ih kt y hdk hy hw)
          (fun y hy hw => ih vt y hdv hy hw) sp hpay.2 hwfx.2,
          mapFold_vnil_of_nodup sp (hasTyJ_pairs_isPairSpine kt vt sp hpay.2) hwfx.1]
      | _ => cases x <;> simp [payloadOk, reconcilePayload] at hpay ⊢
    cases v
    case vnone =>
      rw [hasTyJ_one_vnone] at hty
      rw [reconcileJ_one_vnone]
      simp [defaultVal, hty]
    case vsome x =>
      rw [hasTyJ_one_vsome, Bool.and_eq_true] at hty
      rw [reconcileJ_one_vsome]
      rw [show wfVal (Val.vsome x) = wfVal x from rfl] at hwf
      simp [mkRead, hty.1, hpayload x hty.2 hwf]
    all_goals (
      rw [hasTyJ_one_plain _ _ (fun h => Val.noConfusion h) (fun y h => Val.noConfusion h),
        Bool.and_eq_true] at hty
      rw [reconcileJ_one_plain _ _ _ (fun h => Val.noConfusion h) (fun y h => Val.noConfusion h)]
      have hnl : t.nullable = false := by simpa using hty.1
      simp [mkRead, hnl, hpayload _ hty.2 hwf])

/-- Reconciliation with oneself: on a well-typed, well-formed value a
matched field pair with identical declared types reconstructs the value
unchanged. -/
theorem reconcileVal_id (t : NTy) (v : Val) (hty : hasTy t v = true)
    (hwf : wfVal v = true) : reconcileVal t t v = v :=
  reconcile_id_fuel (ntyDepth t) t v (Nat.le_refl _) hty hwf

/-! ### TypeMeta encoding (modelled from the spec, section 4.3) -/

/-- A declared field: a name (UTF-8 bytes) and its runtime type tree. -/
structure FieldDecl where
  name : List Nat
  ty : NTy
deriving DecidableEq, Repr

/-- Modelled from the spec: set the nullable flag of the root node. -/
def setNullable : NTy → NTy
  | .ti8 _ => .ti8 true
  | .ti16 _ => .ti16 true
  | .ti64 _ => .ti64 true
  | .tbool _ => .tbool true
  | .tstr _ => .tstr true
  | .tvec _ e => .tvec true e
  | .tset _ e => .tset true e
  | .tmap _ k v => .tmap true k v

/-- Clear the nullable flag of the root node. -/
def clearNullable : NTy → NTy
  | .ti8 _ => .ti8 false
  | .ti16 _ => .ti16 false
  | .ti64 _ => .ti64 false
  | .tbool _ => .tbool false
  | .tstr _ => .tstr false
  | .tvec _ e => .tvec false e
  | .tset _ e => .tset false e
  | .tmap _ k v => .tmap false k v

/-- Prefix a FieldType encoding with the synthetic OPTION wrapper node
when the position is nullable. -/
def optPre (nl : Bool) (base : List Nat) : List Nat :=
  if nl then Writer.var_uint32 tidOPTION ++ Writer.var_uint32 1 ++ base else base

/-- Modelled from the spec: the FieldType wire encoding, a var_uint32
type id, a var_uint32 child count and the children recursively; an
Optional position becomes an OPTION node with one child. -/
def ftBytes : NTy → List Nat
  | .ti8 nl => optPre nl (Writer.var_uint32 tidINT8 ++ Writer.var_uint32 0)
  | .ti16 nl => optPre nl (Writer.var_uint32 tidINT16 ++ Writer.var_uint32 0)
  | .ti64 nl => optPre nl (Writer.var_uint32 tidINT64 ++ Writer.var_uint32 0)
  | .tbool nl => optPre nl (Writer.var_uint32 tidBOOL ++ Writer.var_uint32 0)
  | .tstr nl => optPre nl (Writer.var_uint32 tidSTRING ++ Writer.var_uint32 0)
  | .tvec nl e => optPre nl (Writer.var_uint32 tidARRAY ++ Writer.var_uint32 1 ++ ftBytes e)
  | .tset nl e => optPre nl (Writer.var_uint32 tidSET ++ Writer.var_uint32 1 ++ ftBytes e)
  | .tmap nl k v =>
    optPre nl (Writer.var_uint32 tidMAP ++ Writer.var_uint32 2 ++ ftBytes k ++ ftBytes v)

/-- The number of FieldType nodes an encoding carries (the OPTION wrapper
counts as one); it bounds the decoder's recursion fuel. -/
def ftNodes : NTy → Nat
  | .ti8 nl | .ti16 nl | .ti64 nl | .tbool nl | .tstr nl => (if nl then 1 else 0) + 1
  | .tvec nl e => (if nl then 1 else 0) + 1 + ftNodes e
  | .tset nl e => (if nl then 1 else 0) + 1 + ftNodes e
  | .tmap nl k v => (if nl then 1 else 0) + 1 + ftNodes k + ftNodes v

/-- Modelled from the spec: the FieldType decoder; rejects adjacent
OPTION nodes and malformed child counts. -/
def decodeFT : Nat → List Nat → Option (NTy × List Nat)
  | 0, _ => none
  | f + 1, bs =>
    match Reader.var_uint32 bs with
    | none => none
    | some (tid, bs1) =>
      match Reader.var_uint32 bs1 with
      | none => none
      | some (cnt, bs2) =>
        if tid == tidOPTION then
          if cnt == 1 then
            match decodeFT f bs2 with
            | none => none
            | some (t, bs3) => if t.nullable then none else some (setNullable t, bs3)
          else none
        else if tid == tidINT8 then
          if cnt == 0 then some (.ti8 false, bs2) else none
        else if tid == tidINT16 then
          if cnt == 0 then some (.ti16 false, bs2) else none
        else if tid == tidINT64 then
          if cnt == 0 then some (.ti64 false, bs2) else none
        else if tid == tidBOOL then
          if cnt == 0 then some (.tbool false, bs2) else none
        else if tid == tidSTRING then
          if cnt == 0 then some (.tstr false, bs2) else none
        else if tid == tidARRAY then
          if cnt == 1 then
            match decodeFT f bs2 with
            | none => none
            | some (e, bs3) => some (.tvec false e, bs3)
          else none
        else if tid == tidSET then
          if cnt == 1 then
            match decodeFT f bs2 with
            | none => none
            | some (e, bs3) => some (.tset false e, bs3)
          else none
        else if tid == tidMAP then
          if cnt == 2 then
            match decodeFT f bs2 with
            | none => none
            | some (k, bs3) =>
              match decodeFT f bs3 with
              | none => none
              | some (v, bs4) => some (.tmap false k v, bs4)
          else none
        else none

theorem ftNodes_pos (t : NTy) : 1 ≤ ftNodes t := by
  cases t <;> simp [ftNodes] <;> split <;> omega

theorem ftBytes_nullable (t : NTy) (h : t.nullable = true) :
    ftBytes t = Writer.var_uint32 tidOPTION ++ Writer.var_uint32 1
      ++ ftBytes (clearNullable t) := by
  cases t <;> simp [NTy.nullable] at h <;> subst h <;> rfl

theorem clearNullable_nullable (t : NTy) : (clearNullable t).nullable = false := by
  cases t <;> rfl

theorem setNullable_clearNullable (t : NTy) (h : t.nullable = true) :
    setNullable (clearNullable t) = t := by
  cases t <;> simp [NTy.nullable] at h <;> subst h <;> rfl

theorem ftNodes_clearNullable (t : NTy) (h : t.nullable = true) :
    ftNodes (clearNullable t) + 1 = ftNodes t := by
  cases t <;> simp [NTy.nullable] at h <;> subst h <;> simp [ftNodes, clearNullable]
    <;> omega

theorem decodeFT_ftBytes (f : Nat) :
    ∀ (t : NTy) (rest : List Nat), ftNodes t ≤ f →
      decodeFT f (ftBytes t ++ rest) = some (t, rest) := by
  induction f with
  | zero =>
    intro t _ hn
    have := ftNodes_pos t
    omega
  | succ f ih =>
    intro t rest hn
    by_cases hnl : t.nullable = true
    · rw [ftBytes_nullable t hnl]
      have hnodes : ftNodes (clearNullable t) ≤ f := by
        have := ftNodes_clearNullable t hnl
        omega
      simp only [List.append_assoc, decodeFT,
        var_uint32_roundtrip tidOPTION _ (by norm_num [tidOPTION]),
        var_uint32_roundtrip 1 _ (by norm_num),
        ih (clearNullable t) rest hnodes]
      simp [clearNullable_nullable, setNullable_clearNullable t hnl]
    · have hnl' : t.nullable = false := by
        cases h : t.nullable
        · rfl
        · exact absurd h hnl
      cases t with
      | ti8 nl =>
        simp [NTy.nullable] at hnl'
        subst hnl'
        have h1 := var_uint32_roundtrip tidINT8 (Writer.var_uint32 0 ++ rest)
          (by norm_num [tidINT8])
        have h2 := var_uint32_roundtrip 0 rest (by norm_num)
        simp only [tidOPTION, tidINT8, tidINT16, tidINT64, tidBOOL, tidSTRING, tidARRAY, tidSET, tidMAP] at h1
        simp [ftBytes, optPre, decodeFT, h1, h2, tidOPTION, tidINT8, tidINT16, tidINT64, tidBOOL, tidSTRING, tidARRAY, tidSET, tidMAP]
      | ti16 nl =>
        simp [NTy.nullable] at hnl'
        subst hnl'
        have h1 := var_uint32_roundtrip tidINT16 (Writer.var_uint32 0 ++ rest)
          (by norm_num [tidINT16])
        have h2 := var_uint32_roundtrip 0 rest (by norm_num)
        simp only [tidOPTION, tidINT8, tidINT16, tidINT64, tidBOOL, tidSTRING, tidARRAY, tidSET, tidMAP] at h1
        simp [ftBytes, optPre, decodeFT, h1, h2, tidOPTION, tidINT8, tidINT16, tidINT64, tidBOOL, tidSTRING, tidARRAY, tidSET, tidMAP]
      | ti64 nl =>
        simp [NTy.nullable] at hnl'
        subst hnl'
        have h1 := var_uint32_roundtrip tidINT64 (Writer.var_uint32 0 ++ rest)
          (by norm_num [tidINT64])
        have h2 := var_uint32_roundtrip 0 rest (by norm_num)
        simp only [tidOPTION, tidINT8, tidINT16, tidINT64, tidBOOL, tidSTRING, tidARRAY, tidSET, tidMAP] at h1
        simp [ftBytes, optPre, decodeFT, h1, h2, tidOPTION, tidINT8, tidINT16, tidINT64, tidBOOL, tidSTRING, tidARRAY, tidSET, tidMAP]
      | tbool nl =>
        simp [NTy.nullable] at hnl'
        subst hnl'
        have h1 := var_uint32_roundtrip tidBOOL (Writer.var_uint32 0 ++ rest)
          (by norm_num [tidBOOL])
        have h2 := var_uint32_roundtrip 0 rest (by norm_num)
        simp only [tidOPTION, tidINT8, tidINT16, tidINT64, tidBOOL, tidSTRING, tidARRAY, tidSET, tidMAP] at h1
        simp [ftBytes, optPre, decodeFT, h1, h2, tidOPTION, tidINT8, tidINT16, tidINT64, tidBOOL, tidSTRING, tidARRAY, tidSET, tidMAP]
      | tstr nl =>
        simp [NTy.nullable] at hnl'
        subst hnl'
        have h1 := var_uint32_roundtrip tidSTRING (Writer.var_uint32 0 ++ rest)
          (by norm_num [tidSTRING])
        have h2 := var_uint32_roundtrip 0 rest (by norm_num)
        simp only [tidOPTION, tidINT8, tidINT16, tidINT64, tidBOOL, tidSTRING, tidARRAY, tidSET, tidMAP] at h1
        simp [ftBytes, optPre, decodeFT, h1, h2, tidOPTION, tidINT8, tidINT16, tidINT64, tidBOOL, tidSTRING, tidARRAY, tidSET, tidMAP]
      | tvec nl e =>
        simp [NTy.nullable] at hnl'
        subst hnl'
        have he : ftNodes e ≤ f := by
          simp only [ftNodes] at hn
          omega
        have h1 := var_uint32_roundtrip tidARRAY (Writer.var_uint32 1 ++ (ftBytes e ++ rest))
          (by norm_num [tidARRAY])
        have h2 := var_uint32_roundtrip 1 (ftBytes e ++ rest) (by norm_num)
        simp only [tidOPTION, tidINT8, tidINT16, tidINT64, tidBOOL, tidSTRING, tidARRAY, tidSET, tidMAP] at h1
        simp [ftBytes, optPre, decodeFT, h1, h2, ih e rest he, tidOPTION, tidINT8, tidINT16, tidINT64, tidBOOL, tidSTRING, tidARRAY, tidSET, tidMAP]
      | tset nl e =>
        simp [NTy.nullable] at hnl'
        subst hnl'
        have he : ftNodes e ≤ f := by
          simp only [ftNodes] at hn
          omega
        have h1 := var_uint32_roundtrip tidSET (Writer.var_uint32 1 ++ (ftBytes e ++ rest))
          (by norm_num [tidSET])
        have h2 := var_uint32_roundtrip 1 (ftBytes e ++ rest) (by norm_num)
        simp only [tidOPTION, tidINT8, tidINT16, tidINT64, tidBOOL, tidSTRING, tidARRAY, tidSET, tidMAP] at h1
        simp [ftBytes, optPre, decodeFT, h1, h2, ih e rest he, tidOPTION, tidINT8, tidINT16, tidINT64, tidBOOL, tidSTRING, tidARRAY, tidSET, tidMAP]
      | tmap nl k v =>
        simp [NTy.nullable] at hnl'
        subst hnl'
        have hk : ftNodes k ≤ f := by
          simp only [ftNodes] at hn
          omega
        have hv : ftNodes v ≤ f := by
          simp only [ftNodes] at hn
          omega
        have h1 := var_uint32_roundtrip tidMAP
          (Writer.var_uint32 2 ++ (ftBytes k ++ (ftBytes v ++ rest)))
          (by norm_num [tidMAP])
        have h2 := var_uint32_roundtrip 2 (ftBytes k ++ (ftBytes v ++ rest)) (by norm_num)
        simp only [tidOPTION, tidINT8, tidINT16, tidINT64, tidBOOL, tidSTRING, tidARRAY, tidSET, tidMAP] at h1
        simp [ftBytes, optPre, decodeFT, h1, h2, ih k (ftBytes v ++ rest) hk,
          ih v rest hv, tidOPTION, tidINT8, tidINT16, tidINT64, tidBOOL, tidSTRING, tidARRAY, tidSET, tidMAP]

theorem var_uint32_length_pos (n : Nat) : 1 ≤ (Writer.var_uint32 n).length := by
  unfold Writer.var_uint32 writeVarUintAux
  split <;> simp

theorem ftNodes_le_ftBytes (t : NTy) : ftNodes t ≤ (ftBytes t).length := by
  have p0 := var_uint32_length_pos 0
  have p1 := var_uint32_length_pos 1
  have p2 := var_uint32_length_pos 2
  have pOPT := var_uint32_length_pos tidOPTION
  induction t with
  | ti8 nl =>
    have pa := var_uint32_length_pos tidINT8
    cases nl <;> simp [ftNodes, ftBytes, optPre] <;> omega
  | ti16 nl =>
    have pa := var_uint32_length_pos tidINT16
    cases nl <;> simp [ftNodes, ftBytes, optPre] <;> omega
  | ti64 nl =>
    have pa := var_uint32_length_pos tidINT64
    cases nl <;> simp [ftNodes, ftBytes, optPre] <;> omega
  | tbool nl =>
    have pa := var_uint32_length_pos tidBOOL
    cases nl <;> simp [ftNodes, ftBytes, optPre] <;> omega
  | tstr nl =>
    have pa := var_uint32_length_pos tidSTRING
    cases nl <;> simp [ftNodes, ftBytes, optPre] <;> omega
  | tvec nl e ih =>
    have pa := var_uint32_length_pos tidARRAY
    cases nl <;> simp [ftNodes, ftBytes, optPre] <;> omega
  | tset nl e ih =>
    have pa := var_uint32_length_pos tidSET
    cases nl <;> simp [ftNodes, ftBytes, optPre] <;> omega
  | tmap nl k v ihk ihv =>
    have pa := var_uint32_length_pos tidMAP
    cases nl <;> simp [ftNodes, ftBytes, optPre] <;> omega

/-! ### TypeMeta: the field list encoding -/

/-- Modelled from the spec: one field of a TypeMeta, a var_uint32 name
length, the name bytes, then the FieldType encoding. -/
def encodeField (fd : FieldDecl) : List Nat :=
  Writer.var_uint32 fd.name.length ++ fd.name ++ ftBytes fd.ty

/-- Modelled from the spec: the concatenated field encodings. -/
def encodeFields : List FieldDecl → List Nat
  | [] => []
  | fd :: rest => encodeField fd ++ encodeFields rest

/-- Modelled from the spec: TypeMeta bytes, a var_uint32 layer id, a
var_uint32 field count, then the fields. -/
def encodeMeta (layer : Nat) (fields : List FieldDecl) : List Nat :=
  Writer.var_uint32 layer ++ Writer.var_uint32 fields.length ++ encodeFields fields

/-- Take exactly n bytes, failing on a short stream. -/
def takeExact (n : Nat) (bs : List Nat) : Option (List Nat × List Nat) :=
  if n ≤ bs.length then some (bs.take n, bs.drop n) else none

theorem takeExact_append (xs rest : List Nat) :
    takeExact xs.length (xs ++ rest) = some (xs, rest) := by
  simp [takeExact, List.take_left, List.drop_left]

/-- Modelled from the spec: decode a fixed number of TypeMeta fields. -/
def decodeFields (ftFuel : Nat) : Nat → List Nat → Option (List FieldDecl × List Nat)
  | 0, bs => some ([], bs)
  | n + 1, bs =>
    match Reader.var_uint32 bs with
    | none => none
    | some (len, bs1) =>
      match takeExact len bs1 with
      | none => none
      | some (nm, bs2) =>
        match decodeFT ftFuel bs2 with
        | none => none
        | some (t, bs3) =>
          match decodeFields ftFuel n bs3 with
          | none => none
          | some (fs, bs4) => some (⟨nm, t⟩ :: fs, bs4)

/-- Modelled from the spec: decode TypeMeta bytes into a layer id and the
writer's field list. -/
def decodeMeta (ftFuel : Nat) (bs : List Nat) : Option (Nat × List FieldDecl × List Nat) :=
  match Reader.var_uint32 bs with
  | none => none
  | some (layer, bs1) =>
    match Reader.var_uint32 bs1 with
    | none => none
    | some (n, bs2) =>
      match decodeFields ftFuel n bs2 with
      | none => none
      | some (fs, bs3) => some (layer, fs, bs3)

theorem decodeFields_encodeFields (ftFuel : Nat) :
    ∀ (fields : List FieldDecl) (rest : List Nat),
      (∀ fd ∈ fields, fd.name.length < 4294967296 ∧ ftNodes fd.ty ≤ ftFuel) →
      decodeFields ftFuel fields.length (encodeFields fields ++ rest)
        = some (fields, rest) := by
  intro fields
  induction fields with
  | nil => intro rest _; rfl
  | cons fd fs ih =>
    intro rest hb
    have hfd := hb fd (by simp)
    show decodeFields ftFuel (fs.length + 1) ((encodeField fd ++ encodeFields fs) ++ rest) = _
    rw [List.append_assoc]
    simp only [decodeFields, encodeField, List.append_assoc,
      var_uint32_roundtrip fd.name.length _ hfd.1,
      takeExact_append fd.name (ftBytes fd.ty ++ (encodeFields fs ++ rest)),
      decodeFT_ftBytes ftFuel fd.ty _ hfd.2,
      ih rest (fun x hx => hb x (by simp [hx]))]

theorem decodeMeta_encodeMeta (ftFuel layer : Nat) (fields : List FieldDecl)
    (rest : List Nat) (hl : layer < 4294967296) (hc : fields.length < 4294967296)
    (hb : ∀ fd ∈ fields, fd.name.length < 4294967296 ∧ ftNodes fd.ty ≤ ftFuel) :
    decodeMeta ftFuel (encodeMeta layer fields ++ rest) = some (layer, fields, rest) := by
  simp only [decodeMeta, encodeMeta, List.append_assoc,
    var_uint32_roundtrip layer _ hl,
    var_uint32_roundtrip fields.length _ hc,
    decodeFields_encodeFields ftFuel fields rest hb]

/-! ### The compatible reconciliation driver (modelled from the spec, 4.7) -/

/-- Locate the reader's declared field with a given name (name-based
matching). -/
def findReader (rs : List FieldDecl) (n : List Nat) : Option FieldDecl :=
  rs.find? (fun r => r.name == n)

/-- Modelled from the spec: walk the writer's fields in wire order over
the payload.  A field the reader also declares with the same
nullability-stripped type tree is decoded with the generated reader;
any other field's bytes are consumed by the skip walk.  The result
associates reader-relevant field names with their reconciled values. -/
def reconcileFields (rs : List FieldDecl) :
    List FieldDecl → List Nat → Option (List (List Nat × Val) × List Nat)
  | [], bs => some ([], bs)
  | wf :: wrest, bs =>
    match findReader rs wf.name with
    | some r =>
      if stripNT r.ty == stripNT wf.ty then
        match readVal r.ty wf.ty bs with
        | none => none
        | some (v, bs1) =>
          match reconcileFields rs wrest bs1 with
          | none => none
          | some (acc, bs2) => some ((wf.name, v) :: acc, bs2)
      else
        match skipVal wf.ty bs with
        | none => none
        | some bs1 => reconcileFields rs wrest bs1
    | none =>
      match skipVal wf.ty bs with
      | none => none
      | some bs1 => reconcileFields rs wrest bs1

/-- Modelled from the spec: materialise the reader's declared fields in
declaration order, defaulting any field the reconciliation produced no
value for. -/
def assembleFields (rs : List FieldDecl) (assoc : List (List Nat × Val)) : List Val :=
  rs.map (fun r =>
    match List.lookup r.name assoc with
    | some v => v
    | none => defaultVal r.ty)

/-- Modelled from the spec: the payloads of the writer's fields in
declaration order. -/
def writeFieldsPayload : List (FieldDecl × Val) → List Nat
  | [] => []
  | (fd, v) :: rest => writeVal fd.ty v ++ writeFieldsPayload rest

/-- Modelled from the spec: one compatible-mode serialize call for a
struct: the composite type id, the TypeMeta bytes, then the field
payloads in declaration order. -/
def serializeStruct (uid layer : Nat) (ws : List (FieldDecl × Val)) : List Nat :=
  Writer.var_uint32 (composite_type_id uid) ++ encodeMeta layer (ws.map Prod.fst)
    ++ writeFieldsPayload ws

/-- Modelled from the spec: one compatible-mode deserialize call for a
struct declared with reader fields rs and the expected layer id: parse
the composite id and check its low byte is STRUCT, decode the writer's
TypeMeta, require the shared layer id, reconcile the payload against the
reader declaration, and assemble the reader's fields. -/
def deserializeStruct (layer : Nat) (rs : List FieldDecl) (bs : List Nat) :
    Option (List Val) :=
  match Reader.var_uint32 bs with
  | none => none
  | some (cid, bs1) =>
    if struct_id_check cid then
      match decodeMeta bs.length bs1 with
      | none => none
      | some (rlayer, wfields, bs2) =>
        if rlayer == layer then
          match reconcileFields rs wfields bs2 with
          | none => none
          | some (assoc, _) => some (assembleFields rs assoc)
        else none
    else none

/-- The association list the reconciliation driver produces, as a direct
function of the writer's fields and values. -/
def matchedAssoc (rs : List FieldDecl) (ws : List (FieldDecl × Val)) :
    List (List Nat × Val) :=
  ws.filterMap (fun fv =>
    match findReader rs fv.1.name with
    | some r =>
      if stripNT r.ty == stripNT fv.1.ty
      then some (fv.1.name, reconcileVal r.ty fv.1.ty fv.2) else none
    | none => none)

theorem reconcileFields_spec (rs : List FieldDecl) :
    ∀ (ws : List (FieldDecl × Val)) (rest : List Nat),
      (∀ fv ∈ ws, hasTy fv.1.ty fv.2 = true) →
      reconcileFields rs (ws.map Prod.fst) (writeFieldsPayload ws ++ rest)
        = some (matchedAssoc rs ws, rest) := by
  intro ws
  induction ws with
  | nil => intro rest _; rfl
  | cons fv wrest ih =>
    intro rest hty
    obtain ⟨fd, v⟩ := fv
    have hv : hasTy fd.ty v = true := hty (fd, v) (by simp)
    have hrest : ∀ fv ∈ wrest, hasTy fv.1.ty fv.2 = true :=
      fun x hx => hty x (by simp [hx])
    show reconcileFields rs (fd :: wrest.map Prod.fst)
      ((writeVal fd.ty v ++ writeFieldsPayload wrest) ++ rest) = _
    rw [List.append_assoc]
    simp only [reconcileFields]
    cases hf : findReader rs fd.name with
    | some r =>
      by_cases hstrip : stripNT r.ty == stripNT fd.ty
      · have hread := readVal_write r.ty fd.ty v (writeFieldsPayload wrest ++ rest)
          (by simpa using hstrip) hv
        have hstripEq : stripNT r.ty = stripNT fd.ty := by simpa using hstrip
        simp only [hstrip, if_true, hread, ih rest hrest]
        simp [matchedAssoc, List.filterMap_cons, hf, hstripEq]
      · have hstripNe : ¬ (stripNT r.ty = stripNT fd.ty) := by simpa using hstrip
        have hskip := skipVal_write fd.ty v (writeFieldsPayload wrest ++ rest) hv
        simp only [hstrip, if_false, hskip, ih rest hrest]
        simp [matchedAssoc, List.filterMap_cons, hf, hstripNe]
    | none =>
      have hskip := skipVal_write fd.ty v (writeFieldsPayload wrest ++ rest) hv
      simp only [hskip, ih rest hrest]
      simp [matchedAssoc, List.filterMap_cons, hf]

theorem findReader_self (rs : List FieldDecl) (r : FieldDecl)
    (hr : r ∈ rs) (hnd : (rs.map (fun f => f.name)).Nodup) :
    findReader rs r.name = some r := by
  induction rs with
  | nil => cases hr
  | cons a rest ih =>
    rw [List.map_cons, List.nodup_cons] at hnd
    rcases List.mem_cons.mp hr with heq | hmem
    · subst heq
      simp [findReader]
    · have hne : (a.name == r.name) = false := by
        by_contra hc
        have hbe : a.name = r.name := by
          have := Bool.of_not_eq_false hc
          exact eq_of_beq this
        apply hnd.1
        rw [hbe]
        exact List.mem_map_of_mem (fun f => f.name) hmem
      simp only [findReader, List.find?, hne]
      exact ih hmem hnd.2

theorem lookup_matchedAssoc_none (rs : List FieldDecl) (n : List Nat) :
    ∀ (ws : List (FieldDecl × Val)),
      (∀ fv ∈ ws, ¬ (fv.1.name = n)) →
      List.lookup n (matchedAssoc rs ws) = none := by
  intro ws
  induction ws with
  | nil => intro _; rfl
  | cons fv rest ih =>
    intro h
    have hh : ¬ (fv.1.name = n) := h fv (by simp)
    have hn : (n == fv.1.name) = false := by
      by_contra hc
      exact hh (by
        have := Bool.of_not_eq_false hc
        exact (eq_of_beq this).symm)
    have ht := ih (fun x hx => h x (by simp [hx]))
    cases hfr : findReader rs fv.1.name with
    | some r2 =>
      by_cases hs : stripNT r2.ty = stripNT fv.1.ty
      · simp [matchedAssoc, List.filterMap_cons, hfr, hs, List.lookup, hn]
        simpa [matchedAssoc] using ht
      · simp [matchedAssoc, List.filterMap_cons, hfr, hs]
        simpa [matchedAssoc] using ht
    | none =>
      simp [matchedAssoc, List.filterMap_cons, hfr]
      simpa [matchedAssoc] using ht

theorem lookup_matchedAssoc (rs : List FieldDecl) (r : FieldDecl)
    (hr : r ∈ rs) (hnr : (rs.map (fun f => f.name)).Nodup) :
    ∀ (ws : List (FieldDecl × Val)),
      ((ws.map Prod.fst).map (fun f => f.name)).Nodup →
      List.lookup r.name (matchedAssoc rs ws)
        = (match ws.find? (fun fv => fv.1.name == r.name) with
           | some fv => if stripNT r.ty = stripNT fv.1.ty
                        then some (reconcileVal r.ty fv.1.ty fv.2) else none
           | none => none) := by
  intro ws
  induction ws with
  | nil => intro _; rfl
  | cons fv rest ih =>
    intro hnw
    rw [List.map_cons, List.map_cons, List.nodup_cons] at hnw
    by_cases hb : (fv.1.name == r.name) = true
    · have hbeq : fv.1.name = r.name := eq_of_beq hb
      have hfr : findReader rs fv.1.name = some r := by
        rw [hbeq]
        exact findReader_self rs r hr hnr
      have hrb : (r.name == fv.1.name) = true := by
        rw [hbeq]
        exact beq_self_eq_true _
      by_cases hs : stripNT r.ty = stripNT fv.1.ty
      · simp [matchedAssoc, List.filterMap_cons, hfr, hs, List.lookup, List.find?, hb, hrb]
      · have hrestnone : List.lookup r.name (matchedAssoc rs rest) = none := by
          apply lookup_matchedAssoc_none
          intro g hg hgeq
          apply hnw.1
          rw [hbeq, ← hgeq]
          exact List.mem_map_of_mem (fun f => f.name) (List.mem_map_of_mem Prod.fst hg)
        simp [matchedAssoc, List.filterMap_cons, hfr, hs, List.find?, hb]
        simpa [matchedAssoc] using hrestnone
    · have hb' : (fv.1.name == r.name) = false := by
        cases h : fv.1.name == r.name
        · rfl
        · exact absurd h hb
      have hrn : (r.name == fv.1.name) = false := by
        cases h : r.name == fv.1.name
        · rfl
        · exfalso
          apply hb
          have he := eq_of_beq h
          rw [← he]
          exact beq_self_eq_true _
      have hih := ih hnw.2
      cases hfr : findReader rs fv.1.name with
      | some r2 =>
        simp only [matchedAssoc, List.filterMap_cons, hfr, List.find?, hb']
        by_cases hs : stripNT r2.ty = stripNT fv.1.ty
        · rw [if_pos (beq_iff_eq.mpr hs)]
          simp only [List.lookup, hrn]
          simpa [matchedAssoc] using hih
        · rw [if_neg (fun hc => hs (beq_iff_eq.mp hc))]
          simpa [matchedAssoc] using hih
      | none =>
        simp only [matchedAssoc, List.filterMap_cons, hfr, List.find?, hb']
        simpa [matchedAssoc] using hih

theorem ftBytes_le_encodeFields (fd : FieldDecl) :
    ∀ (fields : List FieldDecl), fd ∈ fields →
      (ftBytes fd.ty).length ≤ (encodeFields fields).length := by
  intro fields
  induction fields with
  | nil => intro h; cases h
  | cons a fs ih =>
    intro h
    rcases List.mem_cons.mp h with heq | hmem
    · subst heq
      simp only [encodeFields, encodeField, List.length_append]
      omega
    · have := ih hmem
      simp only [encodeFields, List.length_append]
      omega

/-- C1.  Compatible-mode skip fidelity: for any writer struct shape with
values and any reader shape sharing the layer id, deserializing the
serialized bytes succeeds and yields, for every reader field in
declaration order, the reconciled writer value when a same-named writer
field with the same nullability-stripped type tree exists, and the
reader default otherwise (no same-named writer field, or a writer field
whose stripped type tree differs — its bytes are consumed by the skip
walk and later fields still decode); moreover reconciliation at an
identical type is the identity on well-formed values, so a matching
common field equals the writer's field verbatim. -/
theorem compatible_skip_fidelity (uid layer : Nat) (ws : List (FieldDecl × Val))
    (rs : List FieldDecl)
    (hlayer : layer < 4294967296)
    (hcount : ws.length < 4294967296)
    (hnames : ∀ fv ∈ ws, fv.1.name.length < 4294967296)
    (hnr : (rs.map (fun f => f.name)).Nodup)
    (hnw : ((ws.map Prod.fst).map (fun f => f.name)).Nodup)
    (hty : ∀ fv ∈ ws, hasTy fv.1.ty fv.2 = true) :
    deserializeStruct layer rs (serializeStruct uid layer ws)
      = some (rs.map (fun r =>
          match ws.find? (fun fv => fv.1.name == r.name) with
          | some fv =>
            if stripNT r.ty = stripNT fv.1.ty
            then reconcileVal r.ty fv.1.ty fv.2
            else defaultVal r.ty
          | none => defaultVal r.ty))
    ∧ (∀ t v, hasTy t v = true → wfVal v = true → reconcileVal t t v = v) := by
  constructor
  · have hcid : composite_type_id uid < 4294967296 := by
      unfold composite_type_id
      exact Nat.mod_lt _ (by norm_num)
    have hsplit : serializeStruct uid layer ws
        = Writer.var_uint32 (composite_type_id uid)
          ++ (encodeMeta layer (ws.map Prod.fst) ++ writeFieldsPayload ws) := by
      simp [serializeStruct]
    have hb : ∀ fd ∈ ws.map Prod.fst,
        fd.name.length < 4294967296 ∧
          ftNodes fd.ty ≤ (serializeStruct uid layer ws).length := by
      intro fd hfd
      rcases List.mem_map.mp hfd with ⟨fv, hfv, hfveq⟩
      refine ⟨by rw [← hfveq]; exact hnames fv hfv, ?_⟩
      have h1 := ftNodes_le_ftBytes fd.ty
      have h2 := ftBytes_le_encodeFields fd (ws.map Prod.fst) hfd
      rw [hsplit]
      simp only [List.length_append, encodeMeta]
      omega
    have hcnt : (ws.map Prod.fst).length < 4294967296 := by simpa using hcount
    have hmeta := decodeMeta_encodeMeta (serializeStruct uid layer ws).length layer
      (ws.map Prod.fst) (writeFieldsPayload ws) hlayer hcnt hb
    have hvar2 : Reader.var_uint32 (serializeStruct uid layer ws)
        = some (composite_type_id uid,
            encodeMeta layer (ws.map Prod.fst) ++ writeFieldsPayload ws) := by
      rw [hsplit]
      exact var_uint32_roundtrip (composite_type_id uid) _ hcid
    have hstructck : struct_id_check (composite_type_id uid) = true := by
      simp [struct_id_check, composite_low_byte]
    have hrecon : reconcileFields rs (ws.map Prod.fst) (writeFieldsPayload ws)
        = some (matchedAssoc rs ws, []) := by
      have h := reconcileFields_spec rs ws [] hty
      simpa using h
    have hasm : assembleFields rs (matchedAssoc rs ws)
        = rs.map (fun r =>
            match ws.find? (fun fv => fv.1.name == r.name) with
            | some fv =>
              if stripNT r.ty = stripNT fv.1.ty
              then reconcileVal r.ty fv.1.ty fv.2
              else defaultVal r.ty
            | none => defaultVal r.ty) := by
      unfold assembleFields
      apply List.map_congr_left
      intro r hrmem
      rw [lookup_matchedAssoc rs r hrmem hnr ws hnw]
      cases hfind : ws.find? (fun fv => fv.1.name == r.name) with
      | some fv =>
        by_cases hs : stripNT r.ty = stripNT fv.1.ty
        · simp [hs]
        · simp [hs]
      | none => rfl
    simp only [deserializeStruct, hvar2, hstructck, if_true, hmeta,
      beq_self_eq_true, hrecon, hasm]
  · intro t v h1 h2
    exact reconcileVal_id t v h1 h2

/-- Writer fixture for the compatible round-trip: f1 an i8, f2 a string
the reader does not declare, f3 an i8 the reader re-declares at a
different width, f4 an i64 after the skipped fields. -/
def wsSimple : List (FieldDecl × Val) :=
  [(⟨[102, 49], NTy.ti8 false⟩, Val.vi8 7),
   (⟨[102, 50], NTy.tstr false⟩, Val.vstr [104, 105]),
   (⟨[102, 51], NTy.ti8 false⟩, Val.vi8 9),
   (⟨[102, 52], NTy.ti64 false⟩, Val.vi64 666)]

/-- Reader fixture: f0 has no writer counterpart, f1 is read as
Optional i8, f3 mismatches the writer's stripped type, f4 matches. -/
def rsSimple : List FieldDecl :=
  [⟨[102, 48], NTy.tstr false⟩,
   ⟨[102, 49], NTy.ti8 true⟩,
   ⟨[102, 51], NTy.ti16 false⟩,
   ⟨[102, 52], NTy.ti64 false⟩]

theorem compatible_skip_fidelity_witness :
    (∀ fv ∈ wsSimple, hasTy fv.1.ty fv.2 = true) ∧
    deserializeStruct 1 rsSimple (serializeStruct 5 1 wsSimple)
      = some [Val.vstr [], Val.vsome (Val.vi8 7), Val.vi16 0, Val.vi64 666] :=
  ⟨by decide, by
    rw [(compatible_skip_fidelity 5 1 wsSimple rsSimple (by decide) (by decide)
      (by decide) (by decide) (by decide) (by decide)).1]
    rfl⟩

/-- Writer fixture of the six-way nullability matrix: f2 a plain i8 43,
f3 and f4 present Optionals Some 44 and Some 45, f5 and f6 absent
Optionals, last a plain i64 666. -/
def wsNullable : List (FieldDecl × Val) :=
  [(⟨[102, 50], NTy.ti8 false⟩, Val.vi8 43),
   (⟨[102, 51], NTy.ti8 true⟩, Val.vsome (Val.vi8 44)),
   (⟨[102, 52], NTy.ti8 true⟩, Val.vsome (Val.vi8 45)),
   (⟨[102, 53], NTy.ti8 true⟩, Val.vnone),
   (⟨[102, 54], NTy.ti8 true⟩, Val.vnone),
   (⟨[108, 97, 115, 116], NTy.ti64 false⟩, Val.vi64 666)]

/-- Reader fixture of the six-way nullability matrix: nullability flipped
on f2, f3 and f6, kept Optional on f4 and f5, plain on last. -/
def rsNullable : List FieldDecl :=
  [⟨[102, 50], NTy.ti8 true⟩,
   ⟨[102, 51], NTy.ti8 false⟩,
   ⟨[102, 52], NTy.ti8 true⟩,
   ⟨[102, 53], NTy.ti8 true⟩,
   ⟨[102, 54], NTy.ti8 false⟩,
   ⟨[108, 97, 115, 116], NTy.ti64 false⟩]

/-- C2.  Six-way nullability coercion: at a matched field pair agreeing on
the inner type, a plain value read as Optional yields Some of it, a
present Optional read as plain yields the inner value, Optional-to-
Optional passes Some through, an absent Optional read as Optional yields
None, an absent Optional read as plain yields the inner default, and
plain-to-plain is the identity; and the writer {f2: 43, f3: Some 44,
f4: Some 45, f5: None, f6: None, last: 666} read with the inverted
nullability declaration yields exactly {f2: Some 43, f3: 44,
f4: Some 45, f5: None, f6: 0, last: 666}. -/
theorem nullability_coercion_matrix (x : Int) (h1 : -128 ≤ x) (h2 : x < 128) :
    (∀ rest, readVal (NTy.ti8 true) (NTy.ti8 false)
      (writeVal (NTy.ti8 false) (Val.vi8 x) ++ rest) = some (Val.vsome (Val.vi8 x), rest))
    ∧ (∀ rest, readVal (NTy.ti8 false) (NTy.ti8 true)
      (writeVal (NTy.ti8 true) (Val.vsome (Val.vi8 x)) ++ rest) = some (Val.vi8 x, rest))
    ∧ (∀ rest, readVal (NTy.ti8 true) (NTy.ti8 true)
      (writeVal (NTy.ti8 true) (Val.vsome (Val.vi8 x)) ++ rest)
        = some (Val.vsome (Val.vi8 x), rest))
    ∧ (∀ rest, readVal (NTy.ti8 true) (NTy.ti8 true)
      (writeVal (NTy.ti8 true) Val.vnone ++ rest) = some (Val.vnone, rest))
    ∧ (∀ rest, readVal (NTy.ti8 false) (NTy.ti8 true)
      (writeVal (NTy.ti8 true) Val.vnone ++ rest) = some (Val.vi8 0, rest))
    ∧ (∀ rest, readVal (NTy.ti8 false) (NTy.ti8 false)
      (writeVal (NTy.ti8 false) (Val.vi8 x) ++ rest) = some (Val.vi8 x, rest))
    ∧ deserializeStruct 1 rsNullable (serializeStruct 9 1 wsNullable)
        = some [Val.vsome (Val.vi8 43), Val.vi8 44, Val.vsome (Val.vi8 45),
                Val.vnone, Val.vi8 0, Val.vi64 666] := by
  have htyP : hasTy (NTy.ti8 false) (Val.vi8 x) = true := by
    show hasTyJ (TyJob.one (NTy.ti8 false)) (Val.vi8 x) = true
    rw [hasTyJ_one_plain _ _ (by simp) (fun y => by simp)]
    simp [payloadOk, NTy.nullable]
    omega
  have htyS : hasTy (NTy.ti8 true) (Val.vsome (Val.vi8 x)) = true := by
    show hasTyJ (TyJob.one (NTy.ti8 true)) (Val.vsome (Val.vi8 x)) = true
    rw [hasTyJ_one_vsome]
    simp [payloadOk, NTy.nullable]
    omega
  have htyN : hasTy (NTy.ti8 true) Val.vnone = true := rfl
  refine ⟨fun rest => ?_, fun rest => ?_, fun rest => ?_, fun rest => ?_,
    fun rest => ?_, fun rest => ?_, ?_⟩
  · exact readVal_write (NTy.ti8 true) (NTy.ti8 false) (Val.vi8 x) rest rfl htyP
  · exact readVal_write (NTy.ti8 false) (NTy.ti8 true) (Val.vsome (Val.vi8 x)) rest rfl htyS
  · exact readVal_write (NTy.ti8 true) (NTy.ti8 true) (Val.vsome (Val.vi8 x)) rest rfl htyS
  · exact readVal_write (NTy.ti8 true) (NTy.ti8 true) Val.vnone rest rfl htyN
  · exact readVal_write (NTy.ti8 false) (NTy.ti8 true) Val.vnone rest rfl htyN
  · exact readVal_write (NTy.ti8 false) (NTy.ti8 false) (Val.vi8 x) rest rfl htyP
  · decide

theorem nullability_coercion_matrix_witness :
    ((-128 : Int) ≤ 43 ∧ (43 : Int) < 128) ∧
    (∀ rest, readVal (NTy.ti8 true) (NTy.ti8 false)
      (writeVal (NTy.ti8 false) (Val.vi8 43) ++ rest)
        = some (Val.vsome (Val.vi8 43), rest)) :=
  ⟨by decide, (nullability_coercion_matrix 43 (by decide) (by decide)).1⟩

/-- C3.  Inner nullability coercion in collections: a Sequence, Set or
Map whose writer-side entries are Optional i8 and whose reader-side
entries are plain i8 decodes to the entry-wise reconciled collection, the
per-entry coercion sends None to the i8 default 0 and Some x to x, and
the concrete writers [None, Some 42], {None, Some 43} and
{44: None, 45: Some 46} read as [0, 42], {0, 43} and {44: 0, 45: 46}. -/
theorem inner_nullability_collections (sp sp2 : Val)
    (hsp : hasTyJ (TyJob.many (NTy.ti8 true)) sp = true)
    (hlen : spineLen sp < 2147483648)
    (hsp2 : hasTyJ (TyJob.pairs (NTy.ti8 false) (NTy.ti8 true)) sp2 = true)
    (hlen2 : spineLen sp2 < 2147483648) :
    (∀ rest, readVal (NTy.tvec false (NTy.ti8 false)) (NTy.tvec false (NTy.ti8 true))
      (writeVal (NTy.tvec false (NTy.ti8 true)) (Val.vvec sp) ++ rest)
        = some (Val.vvec
            (spineMap (reconcileJ (RecJob.one (NTy.ti8 false) (NTy.ti8 true))) sp), rest))
    ∧ (∀ rest, readVal (NTy.tset false (NTy.ti8 false)) (NTy.tset false (NTy.ti8 true))
      (writeVal (NTy.tset false (NTy.ti8 true)) (Val.vset sp) ++ rest)
        = some (Val.vset (setFold Val.vnil
            (spineMap (reconcileJ (RecJob.one (NTy.ti8 false) (NTy.ti8 true))) sp)), rest))
    ∧ (∀ rest, readVal (NTy.tmap false (NTy.ti8 false) (NTy.ti8 false))
      (NTy.tmap false (NTy.ti8 false) (NTy.ti8 true))
      (writeVal (NTy.tmap false (NTy.ti8 false) (NTy.ti8 true)) (Val.vmap sp2) ++ rest)
        = some (Val.vmap (mapFold Val.vnil
            (spineMapPairs (reconcileJ (RecJob.one (NTy.ti8 false) (NTy.ti8 false)))
              (reconcileJ (RecJob.one (NTy.ti8 false) (NTy.ti8 true))) sp2)), rest))
    ∧ reconcileJ (RecJob.one (NTy.ti8 false) (NTy.ti8 true)) Val.vnone = Val.vi8 0
    ∧ (∀ n, reconcileJ (RecJob.one (NTy.ti8 false) (NTy.ti8 true))
        (Val.vsome (Val.vi8 n)) = Val.vi8 n)
    ∧ readVal (NTy.tvec false (NTy.ti8 false)) (NTy.tvec false (NTy.ti8 true))
        (writeVal (NTy.tvec false (NTy.ti8 true))
          (Val.vvec (Val.vcons Val.vnone (Val.vcons (Val.vsome (Val.vi8 42)) Val.vnil))))
        = some (Val.vvec (Val.vcons (Val.vi8 0) (Val.vcons (Val.vi8 42) Val.vnil)), [])
    ∧ readVal (NTy.tset false (NTy.ti8 false)) (NTy.tset false (NTy.ti8 true))
        (writeVal (NTy.tset false (NTy.ti8 true))
          (Val.vset (Val.vcons Val.vnone (Val.vcons (Val.vsome (Val.vi8 43)) Val.vnil))))
        = some (Val.vset (Val.vcons (Val.vi8 0) (Val.vcons (Val.vi8 43) Val.vnil)), [])
    ∧ readVal (NTy.tmap false (NTy.ti8 false) (NTy.ti8 false))
        (NTy.tmap false (NTy.ti8 false) (NTy.ti8 true))
        (writeVal (NTy.tmap false (NTy.ti8 false) (NTy.ti8 true))
          (Val.vmap (Val.vcons (Val.vpair (Val.vi8 44) Val.vnone)
            (Val.vcons (Val.vpair (Val.vi8 45) (Val.vsome (Val.vi8 46))) Val.vnil))))
        = some (Val.vmap (Val.vcons (Val.vpair (Val.vi8 44) (Val.vi8 0))
            (Val.vcons (Val.vpair (Val.vi8 45) (Val.vi8 46)) Val.vnil)), []) := by
  have htyv : hasTy (NTy.tvec false (NTy.ti8 true)) (Val.vvec sp) = true := by
    show hasTyJ (TyJob.one (NTy.tvec false (NTy.ti8 true))) (Val.vvec sp) = true
    rw [hasTyJ_one_plain _ _ (by simp) (fun y => by simp)]
    simp [payloadOk, NTy.nullable, hsp, hlen]
  have htys : hasTy (NTy.tset false (NTy.ti8 true)) (Val.vset sp) = true := by
    show hasTyJ (TyJob.one (NTy.tset false (NTy.ti8 true))) (Val.vset sp) = true
    rw [hasTyJ_one_plain _ _ (by simp) (fun y => by simp)]
    simp [payloadOk, NTy.nullable, hsp, hlen]
  have htym : hasTy (NTy.tmap false (NTy.ti8 false) (NTy.ti8 true)) (Val.vmap sp2) = true := by
    show hasTyJ (TyJob.one (NTy.tmap false (NTy.ti8 false) (NTy.ti8 true))) (Val.vmap sp2)
      = true
    rw [hasTyJ_one_plain _ _ (by simp) (fun y => by simp)]
    simp [payloadOk, NTy.nullable, hsp2, hlen2]
  have hrecv : reconcileVal (NTy.tvec false (NTy.ti8 false)) (NTy.tvec false (NTy.ti8 true))
      (Val.vvec sp)
      = Val.vvec (spineMap (reconcileJ (RecJob.one (NTy.ti8 false) (NTy.ti8 true))) sp) := by
    show reconcileJ (RecJob.one (NTy.tvec false (NTy.ti8 false))
      (NTy.tvec false (NTy.ti8 true))) (Val.vvec sp) = _
    rw [reconcileJ_one_plain _ _ _ (by simp) (fun y => by simp)]
    simp [reconcilePayload, mkRead, elemTy, NTy.nullable, reconcileJ_many_eq]
  have hrecs : reconcileVal (NTy.tset false (NTy.ti8 false)) (NTy.tset false (NTy.ti8 true))
      (Val.vset sp)
      = Val.vset (setFold Val.vnil
          (spineMap (reconcileJ (RecJob.one (NTy.ti8 false) (NTy.ti8 true))) sp)) := by
    show reconcileJ (RecJob.one (NTy.tset false (NTy.ti8 false))
      (NTy.tset false (NTy.ti8 true))) (Val.vset sp) = _
    rw [reconcileJ_one_plain _ _ _ (by simp) (fun y => by simp)]
    simp [reconcilePayload, mkRead, elemTy, NTy.nullable, reconcileJ_many_eq]
  have hrecm : reconcileVal (NTy.tmap false (NTy.ti8 false) (NTy.ti8 false))
      (NTy.tmap false (NTy.ti8 false) (NTy.ti8 true)) (Val.vmap sp2)
      = Val.vmap (mapFold Val.vnil
          (spineMapPairs (reconcileJ (RecJob.one (NTy.ti8 false) (NTy.ti8 false)))
            (reconcileJ (RecJob.one (NTy.ti8 false) (NTy.ti8 true))) sp2)) := by
    show reconcileJ (RecJob.one (NTy.tmap false (NTy.ti8 false) (NTy.ti8 false))
      (NTy.tmap false (NTy.ti8 false) (NTy.ti8 true))) (Val.vmap sp2) = _
    rw [reconcileJ_one_plain _ _ _ (by simp) (fun y => by simp)]
    simp [reconcilePayload, mkRead, keyTy, valTy, NTy.nullable, reconcileJ_pairs_eq]
  refine ⟨fun rest => ?_, fun rest => ?_, fun rest => ?_, rfl, fun n => rfl,
    by decide, by decide, by decide⟩
  · rw [readVal_write (NTy.tvec false (NTy.ti8 false)) (NTy.tvec false (NTy.ti8 true))
      _ rest rfl htyv, hrecv]
  · rw [readVal_write (NTy.tset false (NTy.ti8 false)) (NTy.tset false (NTy.ti8 true))
      _ rest rfl htys, hrecs]
  · rw [readVal_write (NTy.tmap false (NTy.ti8 false) (NTy.ti8 false))
      (NTy.tmap false (NTy.ti8 false) (NTy.ti8 true)) _ rest rfl htym, hrecm]

theorem inner_nullability_collections_witness :
    (hasTyJ (TyJob.many (NTy.ti8 true))
        (Val.vcons Val.vnone (Val.vcons (Val.vsome (Val.vi8 42)) Val.vnil)) = true) ∧
    readVal (NTy.tvec false (NTy.ti8 false)) (NTy.tvec false (NTy.ti8 true))
      (writeVal (NTy.tvec false (NTy.ti8 true))
        (Val.vvec (Val.vcons Val.vnone (Val.vcons (Val.vsome (Val.vi8 42)) Val.vnil))) ++ [])
      = some (Val.vvec
          (spineMap (reconcileJ (RecJob.one (NTy.ti8 false) (NTy.ti8 true)))
            (Val.vcons Val.vnone (Val.vcons (Val.vsome (Val.vi8 42)) Val.vnil))), []) :=
  ⟨by decide,
    (inner_nullability_collections
      (Val.vcons Val.vnone (Val.vcons (Val.vsome (Val.vi8 42)) Val.vnil)) Val.vnil
      (by decide) (by decide) (by decide) (by decide)).1 []⟩

/-- C5 counterexample.  The generated reader consumes a ref-flag byte even
when neither side of the matched pair is Optional: the writer of a plain
i8 emits flag 1, type id 2 and the payload byte, the reader of the
non-Optional pair succeeds exactly on that three-byte stream, and fails
on the stream with the flag byte removed (the stream the claim says a
non-Optional pair produces and consumes). -/
theorem ref_flag_read_counterexample :
    writeVal (NTy.ti8 false) (Val.vi8 42) = [1, 2, 42]
    ∧ readVal (NTy.ti8 false) (NTy.ti8 false) [1, 2, 42] = some (Val.vi8 42, [])
    ∧ readVal (NTy.ti8 false) (NTy.ti8 false) [2, 42] = none := by
  decide

/-- C5 amended.  The generated reader reads the ref flag unconditionally,
for every matched pair: it fails on an empty stream even for a fully
non-Optional pair, and when the writer node is non-Optional the decoded
result never depends on the value of the first (flag) byte — the byte is
consumed and ignored rather than conditionally read. -/
theorem ref_flag_always_read (rt wt : NTy) (hw : wt.nullable = false) :
    readVal rt wt [] = none
    ∧ ∀ b b' bs, readVal rt wt (b :: bs) = readVal rt wt (b' :: bs) := by
  obtain ⟨f, hf⟩ : ∃ f, ntyDepth rt = f + 1 :=
    ⟨ntyDepth rt - 1, by have := ntyDepth_pos rt; omega⟩
  constructor
  · rw [readVal, hf]
    rfl
  · intro b b' bs
    rw [readVal, readVal, hf]
    simp [readValF, hw]

theorem ref_flag_always_read_witness :
    (NTy.ti8 false).nullable = false
    ∧ readVal (NTy.ti8 false) (NTy.ti8 false) (7 :: [2, 42])
        = readVal (NTy.ti8 false) (NTy.ti8 false) (9 :: [2, 42]) :=
  ⟨by decide,
    (ref_flag_always_read (NTy.ti8 false) (NTy.ti8 false) (by decide)).2 7 9 [2, 42]⟩

/-- C7 counterexample.  Container elements are not written through the
bare element serializer: a Vec of one plain i8 element 7 serializes to
six bytes — flag, ARRAY type id, count, then a three-byte element
carrying its own ref flag and INT8 type id before the payload byte — the
reader succeeds exactly on that stream, and fails on the stream whose
element is the one-byte serializer payload alone. -/
theorem container_element_header_counterexample :
    writeVal (NTy.tvec false (NTy.ti8 false)) (Val.vvec (Val.vcons (Val.vi8 7) Val.vnil))
      = [1, 12, 2, 1, 2, 7]
    ∧ readVal (NTy.tvec false (NTy.ti8 false)) (NTy.tvec false (NTy.ti8 false))
        [1, 12, 2, 1, 2, 7] = some (Val.vvec (Val.vcons (Val.vi8 7) Val.vnil), [])
    ∧ readVal (NTy.tvec false (NTy.ti8 false)) (NTy.tvec false (NTy.ti8 false))
        [1, 12, 2, 7] = none := by
  decide

/-- C7 amended.  Every container element occupies a full position on the
wire: the element write emits a ref-flag byte and the element's type id
var_uint32 before the payload (three bytes for a plain i8, not one), the
element reader consumes exactly those bytes, and a one-element Vec
round-trips through the container reader with the element in full
position format. -/
theorem container_element_header (x : Int) (h1 : -128 ≤ x) (h2 : x < 128) :
    writeValJ (TyJob.one (NTy.ti8 false)) (Val.vi8 x) = [1, 2, i8ToByte x]
    ∧ (∀ rest, readVal (NTy.ti8 false) (NTy.ti8 false) ([1, 2, i8ToByte x] ++ rest)
        = some (Val.vi8 x, rest))
    ∧ (∀ rest, readVal (NTy.tvec false (NTy.ti8 false)) (NTy.tvec false (NTy.ti8 false))
        (writeVal (NTy.tvec false (NTy.ti8 false))
          (Val.vvec (Val.vcons (Val.vi8 x) Val.vnil)) ++ rest)
        = some (Val.vvec (Val.vcons (Val.vi8 x) Val.vnil), rest)) := by
  have h8 : hasTyJ (TyJob.one (NTy.ti8 false)) (Val.vi8 x) = true := by
    rw [hasTyJ_one_plain _ _ (by simp) (fun y => by simp)]
    simp [payloadOk, NTy.nullable]
    omega
  have hvv : hasTy (NTy.tvec false (NTy.ti8 false))
      (Val.vvec (Val.vcons (Val.vi8 x) Val.vnil)) = true := by
    show hasTyJ (TyJob.one (NTy.tvec false (NTy.ti8 false)))
      (Val.vvec (Val.vcons (Val.vi8 x) Val.vnil)) = true
    rw [hasTyJ_one_plain _ _ (by simp) (fun y => by simp)]
    simp [payloadOk, hasTyJ, NTy.nullable, spineLen, h8]
    omega
  refine ⟨rfl, fun rest => ?_, fun rest => ?_⟩
  · have hw : writeVal (NTy.ti8 false) (Val.vi8 x) = [1, 2, i8ToByte x] := rfl
    rw [← hw]
    exact readVal_write (NTy.ti8 false) (NTy.ti8 false) (Val.vi8 x) rest rfl h8
  · exact readVal_write (NTy.tvec false (NTy.ti8 false)) (NTy.tvec false (NTy.ti8 false))
      (Val.vvec (Val.vcons (Val.vi8 x) Val.vnil)) rest rfl hvv

theorem container_element_header_witness :
    ((-128 : Int) ≤ 7 ∧ (7 : Int) < 128) ∧
    writeValJ (TyJob.one (NTy.ti8 false)) (Val.vi8 7) = [1, 2, i8ToByte 7] :=
  ⟨by decide, (container_element_header 7 (by decide) (by decide)).1⟩

/-- C10.  Duplicate merging in Set and Map decoding: the reader of a Set
or Map consumes exactly the written entry payloads dictated by the length
prefix (the trailing stream is untouched) and never fails on duplicates —
the decoded collection is the insertion fold of the entry-wise coerced
entries, which may hold fewer entries than were written; concretely the
writer set {None, Some 0} of two written entries (seven bytes) decodes to
the single-entry set {0}, and the writer map {None: 1, Some 0: 2} decodes
to the single-entry map {0: 2} with the later value winning. -/
theorem set_map_duplicate_merging (sp sp2 : Val)
    (hsp : hasTyJ (TyJob.many (NTy.ti8 true)) sp = true)
    (hlen : spineLen sp < 2147483648)
    (hsp2 : hasTyJ (TyJob.pairs (NTy.ti8 true) (NTy.ti8 false)) sp2 = true)
    (hlen2 : spineLen sp2 < 2147483648) :
    (∀ rest, readVal (NTy.tset false (NTy.ti8 false)) (NTy.tset false (NTy.ti8 true))
      (writeVal (NTy.tset false (NTy.ti8 true)) (Val.vset sp) ++ rest)
        = some (Val.vset (setFold Val.vnil
            (spineMap (reconcileJ (RecJob.one (NTy.ti8 false) (NTy.ti8 true))) sp)), rest))
    ∧ (∀ rest, readVal (NTy.tmap false (NTy.ti8 false) (NTy.ti8 false))
      (NTy.tmap false (NTy.ti8 true) (NTy.ti8 false))
      (writeVal (NTy.tmap false (NTy.ti8 true) (NTy.ti8 false)) (Val.vmap sp2) ++ rest)
        = some (Val.vmap (mapFold Val.vnil
            (spineMapPairs (reconcileJ (RecJob.one (NTy.ti8 false) (NTy.ti8 true)))
              (reconcileJ (RecJob.one (NTy.ti8 false) (NTy.ti8 false))) sp2)), rest))
    ∧ writeVal (NTy.tset false (NTy.ti8 true))
        (Val.vset (Val.vcons Val.vnone (Val.vcons (Val.vsome (Val.vi8 0)) Val.vnil)))
        = [1, 14, 4, 0, 1, 2, 0]
    ∧ readVal (NTy.tset false (NTy.ti8 false)) (NTy.tset false (NTy.ti8 true))
        [1, 14, 4, 0, 1, 2, 0]
        = some (Val.vset (Val.vcons (Val.vi8 0) Val.vnil), [])
    ∧ spineLen (Val.vcons (Val.vi8 0) Val.vnil)
        < spineLen (Val.vcons Val.vnone (Val.vcons (Val.vsome (Val.vi8 0)) Val.vnil))
    ∧ readVal (NTy.tmap false (NTy.ti8 false) (NTy.ti8 false))
        (NTy.tmap false (NTy.ti8 true) (NTy.ti8 false))
        (writeVal (NTy.tmap false (NTy.ti8 true) (NTy.ti8 false))
          (Val.vmap (Val.vcons (Val.vpair Val.vnone (Val.vi8 1))
            (Val.vcons (Val.vpair (Val.vsome (Val.vi8 0)) (Val.vi8 2)) Val.vnil))))
        = some (Val.vmap (Val.vcons (Val.vpair (Val.vi8 0) (Val.vi8 2)) Val.vnil), []) := by
  have htys : hasTy (NTy.tset false (NTy.ti8 true)) (Val.vset sp) = true := by
    show hasTyJ (TyJob.one (NTy.tset false (NTy.ti8 true))) (Val.vset sp) = true
    rw [hasTyJ_one_plain _ _ (by simp) (fun y => by simp)]
    simp [payloadOk, NTy.nullable, hsp, hlen]
  have htym : hasTy (NTy.tmap false (NTy.ti8 true) (NTy.ti8 false)) (Val.vmap sp2)
      = true := by
    show hasTyJ (TyJob.one (NTy.tmap false (NTy.ti8 true) (NTy.ti8 false))) (Val.vmap sp2)
      = true
    rw [hasTyJ_one_plain _ _ (by simp) (fun y => by simp)]
    simp [payloadOk, NTy.nullable, hsp2, hlen2]
  have hrecs : reconcileVal (NTy.tset false (NTy.ti8 false)) (NTy.tset false (NTy.ti8 true))
      (Val.vset sp)
      = Val.vset (setFold Val.vnil
          (spineMap (reconcileJ (RecJob.one (NTy.ti8 false) (NTy.ti8 true))) sp)) := by
    show reconcileJ (RecJob.one (NTy.tset false (NTy.ti8 false))
      (NTy.tset false (NTy.ti8 true))) (Val.vset sp) = _
    rw [reconcileJ_one_plain _ _ _ (by simp) (fun y => by simp)]
    simp [reconcilePayload, mkRead, elemTy, NTy.nullable, reconcileJ_many_eq]
  have hrecm : reconcileVal (NTy.tmap false (NTy.ti8 false) (NTy.ti8 false))
      (NTy.tmap false (NTy.ti8 true) (NTy.ti8 false)) (Val.vmap sp2)
      = Val.vmap (mapFold Val.vnil
          (spineMapPairs (reconcileJ (RecJob.one (NTy.ti8 false) (NTy.ti8 true)))
            (reconcileJ (RecJob.one (NTy.ti8 false) (NTy.ti8 false))) sp2)) := by
    show reconcileJ (RecJob.one (NTy.tmap false (NTy.ti8 false) (NTy.ti8 false))
      (NTy.tmap false (NTy.ti8 true) (NTy.ti8 false))) (Val.vmap sp2) = _
    rw [reconcileJ_one_plain _ _ _ (by simp) (fun y => by simp)]
    simp [reconcilePayload, mkRead, keyTy, valTy, NTy.nullable, reconcileJ_pairs_eq]
  refine ⟨fun rest => ?_, fun rest => ?_, by decide, by decide, by decide, by decide⟩
  · rw [readVal_write (NTy.tset false (NTy.ti8 false)) (NTy.tset false (NTy.ti8 true))
      _ rest rfl htys, hrecs]
  · rw [readVal_write (NTy.tmap false (NTy.ti8 false) (NTy.ti8 false))
      (NTy.tmap false (NTy.ti8 true) (NTy.ti8 false)) _ rest rfl htym, hrecm]

theorem set_map_duplicate_merging_witness :
    (hasTyJ (TyJob.many (NTy.ti8 true))
        (Val.vcons Val.vnone (Val.vcons (Val.vsome (Val.vi8 0)) Val.vnil)) = true) ∧
    readVal (NTy.tset false (NTy.ti8 false)) (NTy.tset false (NTy.ti8 true))
      (writeVal (NTy.tset false (NTy.ti8 true))
        (Val.vset (Val.vcons Val.vnone (Val.vcons (Val.vsome (Val.vi8 0)) Val.vnil))) ++ [])
      = some (Val.vset (setFold Val.vnil
          (spineMap (reconcileJ (RecJob.one (NTy.ti8 false) (NTy.ti8 true)))
            (Val.vcons Val.vnone (Val.vcons (Val.vsome (Val.vi8 0)) Val.vnil)))), []) :=
  ⟨by decide,
    (set_map_duplicate_merging
      (Val.vcons Val.vnone (Val.vcons (Val.vsome (Val.vi8 0)) Val.vnil)) Val.vnil
      (by decide) (by decide) (by decide) (by decide)).1 []⟩
